import Mathlib

/-!
# PacketPeerUDPPosix: the datagram queue of `drivers/unix/packet_peer_udp_posix.cpp`

A shallow embedding of the UDP packet peer: the frame layout `_poll` writes
into the ring buffer, the decoder of `get_packet`, and the socket calls around
them.

* Bytes are natural numbers.  A 32-bit variable copied to or from the ring
  buffer is four bytes, least significant first.
* The ring buffer, `IP_Address`, `IP::Type` and `nearest_shift` are declared
  outside the sources at hand and are modelled from the specification.
* `sizeof(recv_buffer)` is the parameter `recv_buffer_size` of every operation
  that polls.  The content of `recv_buffer` is only read right after the
  `recvfrom` that filled it, so it is a local value of the loop.
* The socket layer is a script: what the network presents to the socket over
  time, and what the successive `sendto`, `_socket_create` and `bind` calls
  answer; every call the peer issues is appended to a log.  `errno` is tracked
  where the source reads it.
* `queue_count` is a natural number: it is only decremented when it is not 0.
-/

namespace UDP

/-! ## Collaborators declared elsewhere -/

/-- Result codes of `Error` used by the peer. -/
inductive Error
  | OK
  | FAILED
  | ERR_UNAVAILABLE
  | ERR_UNCONFIGURED
  | ERR_CANT_CREATE
  deriving DecidableEq, Repr

/-- Modelled from the spec: the enum `IP::Type` is declared in a header that is not
among the sources; the spec names the address-family tags "none / v4 / v6" in this order. -/
def TYPE_NONE : Nat := 0

/-- Modelled from the spec: tag of an IPv4 source (see `TYPE_NONE`). -/
def TYPE_IPV4 : Nat := 1

/-- Modelled from the spec: tag of an IPv6 source (see `TYPE_NONE`). -/
def TYPE_IPV6 : Nat := 2

/-- Modelled from the spec: the value the constructor stores in `ip_type`
(see `TYPE_NONE`). -/
def TYPE_ANY : Nat := 3

/-- The `errno` value of `EAGAIN`, the "would block" condition. -/
def EAGAIN : Nat := 11

/-- The `errno` value of `EBADF`, reported for a call on an invalid handle. -/
def EBADF : Nat := 9

/-- Modelled from the spec: the class `IP_Address` is declared in a header that
is not among the sources.  The spec speaks of a "null/empty address" and of
addresses that hold "the exact 4 address bytes" or 16 bytes; `empty` is the
default-constructed `IP_Address()`. -/
inductive IP_Address
  | empty
  | ipv4 (bytes : List Nat)
  | ipv6 (bytes : List Nat)
  deriving DecidableEq, Repr

/-- Modelled from the spec: `IP_Address::set_ipv4` stores the 4 bytes it is given. -/
def IP_Address.set_ipv4 (_ip : IP_Address) (p_ip : List Nat) : IP_Address := .ipv4 p_ip

/-- Modelled from the spec: `IP_Address::set_ipv6` stores the 16 bytes it is given. -/
def IP_Address.set_ipv6 (_ip : IP_Address) (p_buf : List Nat) : IP_Address := .ipv6 p_buf

/-- Modelled from the spec: the template `RingBuffer` is declared in a header
that is not among the sources.  The spec gives it a capacity and a count of
bytes held between the read and the write cursor; `data` is that run of bytes,
oldest first. -/
structure RingBuffer where
  capacity : Nat
  data : List Nat
  deriving DecidableEq, Repr

namespace RingBuffer

/-- Modelled from the spec: `space_left()` "returns free byte count". -/
def space_left (rb : RingBuffer) : Nat := rb.capacity - rb.data.length

/-- Modelled from the spec: `write(bytes, count)` "appends `count` bytes at the
write cursor" and "fails (signals `OutOfSpace`) if `count` exceeds the remaining
free space"; `none` is that failure, which stores nothing. -/
def write (rb : RingBuffer) (p_buf : List Nat) : Option RingBuffer :=
  if p_buf.length ≤ rb.space_left then some { rb with data := rb.data ++ p_buf } else none

/-- Modelled from the spec: a consuming `read(count)` "advances the read cursor,
decrements available count" and "fails (`Underrun`) if fewer than `count` bytes
are available"; `none` is that failure, which consumes nothing. -/
def read (rb : RingBuffer) (p_size : Nat) : Option (List Nat × RingBuffer) :=
  if p_size ≤ rb.data.length then
    some (rb.data.take p_size, { rb with data := rb.data.drop p_size })
  else none

/-- Modelled from the spec: `resize` "reallocates storage, clears content and
cursors" and leaves a power-of-two capacity.  The argument is the exponent:
`listen` passes `nearest_shift(p_recv_buffer_size)` and must end with "the
smallest power-of-two ≥ `recv_buffer_size`". -/
def resize (_rb : RingBuffer) (p_power : Nat) : RingBuffer :=
  { capacity := 2 ^ p_power, data := [] }

/-- The call `rb.write(p, n);` of the source, whose result is discarded. -/
def write_ (rb : RingBuffer) (p_buf : List Nat) : RingBuffer := (rb.write p_buf).getD rb

end RingBuffer

/-- Modelled from the spec: `nearest_shift` is declared in a header that is not
among the sources; `listen` "resizes the Ring Buffer to the smallest
power-of-two ≥ `recv_buffer_size`", so this is the least exponent `k ≤ 31` with
`p_number ≤ 2 ^ k`. -/
def nearest_shift (p_number : Nat) : Nat :=
  ((List.range 32).find? (fun k => decide (p_number ≤ 2 ^ k))).getD 31

/-- The four bytes of a 32-bit variable as `rb.write((uint8_t *)&v, 4)` copies
them (host-native order, taken to be little-endian). -/
def u32_bytes (v : Nat) : List Nat :=
  [v % 256, v / 256 % 256, v / 65536 % 256, v / 16777216 % 256]

/-- The `uint32_t` that four bytes copied by `rb.read((uint8_t *)&v, 4, true)`
make up. -/
def bytes_u32 (bs : List Nat) : Nat :=
  bs.getD 0 0 % 256 + 256 * (bs.getD 1 0 % 256) + 65536 * (bs.getD 2 0 % 256)
    + 16777216 * (bs.getD 3 0 % 256)

/-- The `int` that four bytes copied into `packet_port` make up (two's complement). -/
def bytes_i32 (bs : List Nat) : Int :=
  if bytes_u32 bs < 2147483648 then (bytes_u32 bs : Int) else (bytes_u32 bs : Int) - 4294967296

/-! ## The socket -/

/-- The `sockaddr_storage` filled in by `recvfrom`, by `ss_family`.  The port
fields hold the port number, so `ntohs` of the field is that number as a 16-bit
value. -/
inductive SockAddr
  | inet (sin_addr : List Nat) (sin_port : Nat)
  | inet6 (sin6_addr : List Nat) (sin6_port : Nat)
  | other
  deriving DecidableEq, Repr

/-- The value of `ntohs`: the port number as an unsigned 16-bit value. -/
def ntohs (port : Nat) : Nat := port % 65536

/-- What the network presents to the socket, in order of time: a datagram, an
error pending on the socket, or a moment at which nothing is pending. -/
inductive RecvEvent
  | datagram (src : SockAddr) (payload : List Nat)
  | error (errno : Nat)
  | idle
  deriving DecidableEq, Repr

/-- The answer of one `sendto` call: the number of bytes accepted, or `-1` with
an `errno`. -/
inductive SendResult
  | sent (n : Nat)
  | error (errno : Nat)
  deriving DecidableEq, Repr

/-- The system calls the peer issues, with their result. -/
inductive Syscall
  | close (fd : Int)
  | socket_create (ip_type : Nat) (result : Int)
  | bind (fd : Int) (port : Int) (result : Int)
  | recvfrom (fd : Int) (len : Int) (dontwait : Bool) (ret : Int) (errno : Nat)
  | sendto (fd : Int) (buffer : List Nat) (addr : IP_Address) (port : Int) (ret : Int)
  deriving DecidableEq, Repr

/-- The socket layer: what will arrive, what the next `sendto`, `_socket_create`
and `bind` calls answer, and the calls issued so far (oldest first). -/
structure Transport where
  incoming : List RecvEvent
  send_results : List SendResult
  socket_results : List Int
  bind_results : List Int
  log : List Syscall
  deriving DecidableEq, Repr

/-! ## The peer -/

/-- The members of `PacketPeerUDPPosix`.  `packet_buffer` holds the bytes of the
scratch array that have been written so far. -/
structure PacketPeerUDPPosix where
  sockfd : Int
  rb : RingBuffer
  queue_count : Nat
  packet_ip : IP_Address
  packet_port : Int
  packet_buffer : List Nat
  peer_addr : IP_Address
  peer_port : Int
  ip_type : Nat
  deriving DecidableEq, Repr

/-- A peer together with the socket layer it talks to. -/
structure World where
  peer : PacketPeerUDPPosix
  net : Transport
  deriving DecidableEq, Repr

/-- The constructor `PacketPeerUDPPosix::PacketPeerUDPPosix()`; the ring buffer
member is default-constructed, empty, with the capacity `rb_capacity` of a
default-constructed `RingBuffer`. -/
def PacketPeerUDPPosix.construct (rb_capacity : Nat) : PacketPeerUDPPosix :=
  { sockfd := -1
    rb := { capacity := rb_capacity, data := [] }
    queue_count := 0
    packet_ip := IP_Address.empty
    packet_port := 0
    packet_buffer := []
    peer_addr := IP_Address.empty
    peer_port := 0
    ip_type := TYPE_ANY }

/-- The method `PacketPeerUDPPosix::close`. -/
def close (w : World) : World :=
  { peer := { w.peer with
                sockfd := -1
                rb := w.peer.rb.resize 8
                queue_count := 0 }
    net := if w.peer.sockfd ≠ -1 then
             { w.net with log := w.net.log ++ [Syscall.close w.peer.sockfd] }
           else w.net }

/-- The method `PacketPeerUDPPosix::_get_socket`; `none` when the script of
`_socket_create` answers is used up. -/
def _get_socket (w : World) : Option (Int × World) :=
  if w.peer.sockfd ≠ -1 then some (w.peer.sockfd, w)
  else
    match w.net.socket_results with
    | [] => none
    | fd :: rest =>
      some (fd,
        { peer := { w.peer with sockfd := fd }
          net := { w.net with
                     socket_results := rest
                     log := w.net.log ++ [Syscall.socket_create w.peer.ip_type fd] } })

/-- The method `PacketPeerUDPPosix::is_listening`. -/
def is_listening (w : World) : Bool := decide (w.peer.sockfd ≠ -1)

/-- The method `PacketPeerUDPPosix::get_packet_address`. -/
def get_packet_address (w : World) : IP_Address := w.peer.packet_ip

/-- The method `PacketPeerUDPPosix::get_packet_port`. -/
def get_packet_port (w : World) : Int := w.peer.packet_port

/-- The method `PacketPeerUDPPosix::set_send_address`. -/
def set_send_address (p_address : IP_Address) (p_port : Int) (w : World) : World :=
  { w with peer := { w.peer with peer_addr := p_address, peer_port := p_port } }

/-- The method `PacketPeerUDPPosix::get_max_packet_size`. -/
def get_max_packet_size (_w : World) : Int := 512

/-! ## Receiving: `_poll` -/

/-- The length argument of `recvfrom` in `_poll`:
`MIN((int)sizeof(recv_buffer), MAX(rb.space_left() - 12, 0))`. -/
def recv_len (recv_buffer_size : Nat) (rb : RingBuffer) : Int :=
  min (recv_buffer_size : Int) (max ((rb.space_left : Int) - 12) 0)

/-- The writes of the address-family branch in the body of the loop of `_poll`:
the tag and the address bytes, and the value left in `port`. -/
def write_source (rb : RingBuffer) : SockAddr → RingBuffer × Nat
  | .inet sin_addr sin_port =>
    (((rb.write_ [TYPE_IPV4]).write_ sin_addr), ntohs sin_port)
  | .inet6 sin6_addr sin6_port =>
    (((rb.write_ [TYPE_IPV6]).write_ sin6_addr), ntohs sin6_port)
  | .other =>
    (rb.write_ [TYPE_NONE], 0)

/-- The body of the loop of `_poll` for one received datagram: `recv_buffer`
holds the `ret` bytes received from `src`. -/
def enqueue (s : PacketPeerUDPPosix) (src : SockAddr) (recv_buffer : List Nat) :
    PacketPeerUDPPosix :=
  let ret := recv_buffer.length
  let from_ := write_source s.rb src
  let port := from_.2
  let rb2 := from_.1.write_ (u32_bytes port)
  let rb3 := rb2.write_ (u32_bytes ret)
  let rb4 := rb3.write_ recv_buffer
  { s with rb := rb4, queue_count := s.queue_count + 1 }

/-- How the loop of `_poll` ends: the last `ret`, the `errno` of a failed call,
the peer, what is still to arrive, and the calls issued. -/
structure LoopExit where
  ret : Int
  errno : Nat
  peer : PacketPeerUDPPosix
  incoming : List RecvEvent
  log : List Syscall
  deriving DecidableEq, Repr

/-- The `while ((ret = recvfrom(...)) > 0)` loop of `_poll` on a valid handle.
A receive with `MSG_DONTWAIT` answers `EAGAIN` when nothing is pending; one
without it waits for the next arrival, and never returns (`none`) when nothing
arrives any more.  A datagram longer than the length passed is cut to it. -/
def poll_loop (recv_buffer_size : Nat) (p_wait : Bool) :
    List RecvEvent → PacketPeerUDPPosix → List Syscall → Option LoopExit
  | [], s, log =>
    if p_wait then none
    else some ⟨-1, EAGAIN, s, [],
      log ++ [Syscall.recvfrom s.sockfd (recv_len recv_buffer_size s.rb) true (-1) EAGAIN]⟩
  | .idle :: rest, s, log =>
    if p_wait then poll_loop recv_buffer_size p_wait rest s log
    else some ⟨-1, EAGAIN, s, rest,
      log ++ [Syscall.recvfrom s.sockfd (recv_len recv_buffer_size s.rb) true (-1) EAGAIN]⟩
  | .error e :: rest, s, log =>
    some ⟨-1, e, s, rest,
      log ++ [Syscall.recvfrom s.sockfd (recv_len recv_buffer_size s.rb) (!p_wait) (-1) e]⟩
  | .datagram src payload :: rest, s, log =>
    let recv_buffer := payload.take (recv_len recv_buffer_size s.rb).toNat
    let ret : Int := recv_buffer.length
    let call := Syscall.recvfrom s.sockfd (recv_len recv_buffer_size s.rb) (!p_wait) ret 0
    if ret > 0 then
      poll_loop recv_buffer_size p_wait rest (enqueue s src recv_buffer) (log ++ [call])
    else some ⟨ret, 0, s, rest, log ++ [call]⟩

/-- The receive loop of `_poll`: on the handle `-1` the first `recvfrom` fails
with `EBADF`; otherwise `poll_loop` runs. -/
def recv_loop (recv_buffer_size : Nat) (p_wait : Bool) (w : World) : Option LoopExit :=
  if w.peer.sockfd = -1 then
    some ⟨-1, EBADF, w.peer, w.net.incoming,
      w.net.log ++ [Syscall.recvfrom w.peer.sockfd (recv_len recv_buffer_size w.peer.rb)
        (!p_wait) (-1) EBADF]⟩
  else poll_loop recv_buffer_size p_wait w.net.incoming w.peer w.net.log

/-- The method `PacketPeerUDPPosix::_poll`; `none` when a blocking receive never
returns. -/
def _poll (recv_buffer_size : Nat) (p_wait : Bool) (w : World) : Option (Error × World) :=
  match recv_loop recv_buffer_size p_wait w with
  | none => none
  | some x =>
    let w1 : World := { peer := x.peer, net := { w.net with incoming := x.incoming, log := x.log } }
    if x.ret = 0 ∨ (x.ret = -1 ∧ x.errno ≠ EAGAIN) then
      some (Error.FAILED, close w1)
    else some (Error.OK, w1)

/-- The method `PacketPeerUDPPosix::wait`. -/
def wait (recv_buffer_size : Nat) (w : World) : Option (Error × World) :=
  _poll recv_buffer_size true w

/-- The method `PacketPeerUDPPosix::get_available_packet_count`. -/
def get_available_packet_count (recv_buffer_size : Nat) (w : World) : Option (Nat × World) :=
  match _poll recv_buffer_size false w with
  | none => none
  | some (err, w1) =>
    if err ≠ Error.OK then some (0, w1) else some (w1.peer.queue_count, w1)

/-! ## Dequeuing: `get_packet` -/

/-- The indeterminate initial values of the locals of `get_packet` that a
failed read leaves in place. -/
structure Uninit where
  type : Nat
  ip : List Nat
  ipv6 : List Nat
  size : Nat
  deriving DecidableEq, Repr

/-- What `get_packet` hands back: the result code and, through `r_buffer` and
`r_buffer_size`, the first `size` bytes of `packet_buffer`. -/
structure Packet where
  err : Error
  r_buffer : List Nat
  r_buffer_size : Nat
  deriving DecidableEq, Repr

/-- The call `rb.read(p, n, true);` of the source: the bytes read and the
buffer after it, or the old content `old` of the destination and the unchanged
buffer when the read fails. -/
def read_ (rb : RingBuffer) (p_size : Nat) (old : List Nat) : List Nat × RingBuffer :=
  (rb.read p_size).getD (old, rb)

/-- The decoder of `get_packet`, after the poll and the check of `queue_count`. -/
def decode (u : Uninit) (s : PacketPeerUDPPosix) : Packet × PacketPeerUDPPosix :=
  let type := read_ s.rb 1 [u.type]
  let addr : IP_Address × RingBuffer :=
    if type.1 = [TYPE_IPV4] then
      let ip := read_ type.2 4 u.ip
      (s.packet_ip.set_ipv4 ip.1, ip.2)
    else
      let ipv6 := read_ type.2 16 u.ipv6
      (s.packet_ip.set_ipv6 ipv6.1, ipv6.2)
  let port : Int × RingBuffer :=
    match addr.2.read 4 with
    | some (bs, rb) => (bytes_i32 bs, rb)
    | none => (s.packet_port, addr.2)
  let size : Nat × RingBuffer :=
    match port.2.read 4 with
    | some (bs, rb) => (bytes_u32 bs, rb)
    | none => (u.size, port.2)
  let buf : List Nat × RingBuffer :=
    match size.2.read size.1 with
    | some (bs, rb) => (bs ++ s.packet_buffer.drop size.1, rb)
    | none => (s.packet_buffer, size.2)
  (⟨Error.OK, buf.1.take size.1, size.1⟩,
    { s with rb := buf.2, packet_ip := addr.1, packet_port := port.1,
             packet_buffer := buf.1, queue_count := s.queue_count - 1 })

/-- The method `PacketPeerUDPPosix::get_packet`; when no packet is returned the
output parameters are not written (`r_buffer` empty, size 0 here). -/
def get_packet (recv_buffer_size : Nat) (u : Uninit) (w : World) : Option (Packet × World) :=
  match _poll recv_buffer_size false w with
  | none => none
  | some (err, w1) =>
    if err ≠ Error.OK then some (⟨err, [], 0⟩, w1)
    else if w1.peer.queue_count = 0 then some (⟨Error.ERR_UNAVAILABLE, [], 0⟩, w1)
    else
      let (pkt, s) := decode u w1.peer
      some (pkt, { w1 with peer := s })

/-! ## Sending and binding -/

/-- The `while ((err = sendto(...)) != p_buffer_size)` loop of `put_packet`:
`errno` is the value left by the calls so far (a call that accepts bytes does
not set it); `none` when the script of answers is used up. -/
def send_loop (sock : Int) (p_buffer : List Nat) (addr : IP_Address) (port : Int) :
    List SendResult → Nat → List Syscall → Option (Error × List SendResult × List Syscall)
  | [], _, _ => none
  | r :: rest, errno, log =>
    let err : Int := match r with
      | .sent n => (n : Int)
      | .error _ => -1
    let errno1 : Nat := match r with
      | .sent _ => errno
      | .error e => e
    let log1 := log ++ [Syscall.sendto sock p_buffer addr port err]
    if err ≠ (p_buffer.length : Int) then
      if errno1 ≠ EAGAIN then some (Error.FAILED, rest, log1)
      else send_loop sock p_buffer addr port rest errno1 log1
    else some (Error.OK, rest, log1)

/-- The method `PacketPeerUDPPosix::put_packet`. -/
def put_packet (p_buffer : List Nat) (w : World) : Option (Error × World) :=
  if w.peer.peer_addr = IP_Address.empty then some (Error.ERR_UNCONFIGURED, w)
  else
    match _get_socket w with
    | none => none
    | some (sock, w1) =>
      if sock = -1 then some (Error.FAILED, w1)
      else
        match send_loop sock p_buffer w1.peer.peer_addr w1.peer.peer_port
            w1.net.send_results 0 w1.net.log with
        | none => none
        | some (err, rest, log) =>
          some (err, { w1 with net := { w1.net with send_results := rest, log := log } })

/-- The method `PacketPeerUDPPosix::listen`; `none` when the script of
`_socket_create` or of `bind` answers is used up. -/
def listen (p_port : Int) (p_recv_buffer_size : Nat) (w : World) : Option (Error × World) :=
  let w1 := close w
  match _get_socket w1 with
  | none => none
  | some (sock, w2) =>
    if sock = -1 then some (Error.ERR_CANT_CREATE, w2)
    else
      match w2.net.bind_results with
      | [] => none
      | r :: rest =>
        let w3 : World :=
          { w2 with net := { w2.net with
                               bind_results := rest
                               log := w2.net.log ++ [Syscall.bind sock p_port r] } }
        if r = -1 then some (Error.ERR_UNAVAILABLE, close w3)
        else
          some (Error.OK,
            { w3 with peer := { w3.peer with
                                  rb := w3.peer.rb.resize (nearest_shift p_recv_buffer_size) } })

/-! ## The frame layout in the words of the specification -/

/-- The frame of one datagram as the specification lays it out: "1 byte
address-family tag; 4 or 16 bytes of address data depending on tag (0 bytes if
tag is none); 4 bytes source port; 4 bytes payload length; payload bytes". -/
def spec_frame : SockAddr → List Nat → List Nat
  | .inet a p, payload =>
    [TYPE_IPV4] ++ a ++ u32_bytes (ntohs p) ++ u32_bytes payload.length ++ payload
  | .inet6 a p, payload =>
    [TYPE_IPV6] ++ a ++ u32_bytes (ntohs p) ++ u32_bytes payload.length ++ payload
  | .other, payload =>
    [TYPE_NONE] ++ u32_bytes 0 ++ u32_bytes payload.length ++ payload

/-- The number of bytes of the frame of a datagram. -/
def frame_size (src : SockAddr) (payload : List Nat) : Nat := (spec_frame src payload).length

/-- A source of a known family: an IPv4 address of 4 bytes or an IPv6 address of
16 bytes, with a 16-bit port. -/
def known_source : SockAddr → Prop
  | .inet a p => a.length = 4 ∧ p < 65536
  | .inet6 a p => a.length = 16 ∧ p < 65536
  | .other => False

instance : DecidablePred known_source := fun src => by
  cases src <;> unfold known_source <;> infer_instance

/-- The address of a source as the peer reports it. -/
def source_address : SockAddr → IP_Address
  | .inet a _ => .ipv4 a
  | .inet6 a _ => .ipv6 a
  | .other => .empty

/-- The port of a source as the peer reports it. -/
def source_port : SockAddr → Int
  | .inet _ p => (p : Int)
  | .inet6 _ p => (p : Int)
  | .other => 0

/-- A datagram: its source and its payload. -/
abbrev Datagram := SockAddr × List Nat

/-- The bytes of the frames of a list of datagrams, one after the other. -/
def spec_frames : List Datagram → List Nat
  | [] => []
  | d :: ds => spec_frame d.1 d.2 ++ spec_frames ds

/-- A burst of datagrams as the network presents it. -/
def arrivals (ds : List Datagram) : List RecvEvent := ds.map (fun d => RecvEvent.datagram d.1 d.2)

/-- What a caller sees of one `get_packet` call: the packet, then
`get_packet_address()` and `get_packet_port()`. -/
structure Delivery where
  packet : Packet
  address : IP_Address
  port : Int
  deriving DecidableEq, Repr

/-- The delivery that hands a datagram over unchanged. -/
def delivery_of (d : Datagram) : Delivery :=
  ⟨⟨Error.OK, d.2, d.2.length⟩, source_address d.1, source_port d.1⟩

/-- Some `n` successive `get_packet` calls, each followed by
`get_packet_address()` and `get_packet_port()`. -/
def get_packets (recv_buffer_size : Nat) (u : Uninit) : Nat → World → Option (List Delivery × World)
  | 0, w => some ([], w)
  | n + 1, w =>
    match get_packet recv_buffer_size u w with
    | none => none
    | some (pkt, w1) =>
      match get_packets recv_buffer_size u n w1 with
      | none => none
      | some (rest, w2) => some (⟨pkt, get_packet_address w1, get_packet_port w1⟩ :: rest, w2)

/-- The number of address bytes the specification gives a tag: "4 or 16 bytes of
address data depending on tag (0 bytes if tag is none)". -/
def spec_addr_len (tag : Nat) : Option Nat :=
  if tag = TYPE_NONE then some 0
  else if tag = TYPE_IPV4 then some 4
  else if tag = TYPE_IPV6 then some 16
  else none

/-- The bytes that follow one complete frame at the head of `data`, in the
layout of the specification; `none` when `data` does not start with a complete
frame. -/
def spec_drop_frame : List Nat → Option (List Nat)
  | [] => none
  | tag :: r =>
    match spec_addr_len tag with
    | none => none
    | some n =>
      if n + 8 ≤ r.length then
        let len := bytes_u32 ((r.drop (n + 4)).take 4)
        if len ≤ (r.drop (n + 8)).length then some ((r.drop (n + 8)).drop len) else none
      else none

/-- The number of complete frames `data` is the concatenation of, read with at
most `fuel` steps; `none` when `data` is no such concatenation. -/
def spec_count_frames : Nat → List Nat → Option Nat
  | _, [] => some 0
  | 0, _ :: _ => none
  | fuel + 1, b :: r =>
    match spec_drop_frame (b :: r) with
    | none => none
    | some rest => (spec_count_frames fuel rest).map (fun k => k + 1)

/-- Queue-depth consistency in the words of the specification: the content of
the ring buffer is exactly `queue_count` complete frames. -/
def queue_consistent (s : PacketPeerUDPPosix) : Prop :=
  spec_count_frames s.rb.data.length s.rb.data = some s.queue_count

instance (s : PacketPeerUDPPosix) : Decidable (queue_consistent s) := by
  unfold queue_consistent; infer_instance

/-- The calls issued between two moments: the part of the log of `w1` that
follows the log of `w`. -/
def issued (w w1 : World) : List Syscall := w1.net.log.drop w.net.log.length

/-- The results `(ret, errno)` of the `recvfrom` calls among some calls. -/
def recv_results : List Syscall → List (Int × Nat)
  | [] => []
  | Syscall.recvfrom _ _ _ ret errno :: cs => (ret, errno) :: recv_results cs
  | _ :: cs => recv_results cs

/-- Whether each `recvfrom` call among some calls was issued with `MSG_DONTWAIT`. -/
def recv_flags : List Syscall → List Bool
  | [] => []
  | Syscall.recvfrom _ _ dontwait _ _ :: cs => dontwait :: recv_flags cs
  | _ :: cs => recv_flags cs

/-- The caller-facing operations of the peer. -/
inductive Call
  | listen (p_port : Int) (p_recv_buffer_size : Nat)
  | close
  | wait
  | get_available_packet_count
  | get_packet (u : Uninit)
  | put_packet (p_buffer : List Nat)
  | set_send_address (p_address : IP_Address) (p_port : Int)
  deriving DecidableEq, Repr

/-- One caller-facing operation: the `Error` it returns, when it returns one,
and the world after it. -/
def Call.run (recv_buffer_size : Nat) : Call → World → Option (Option Error × World)
  | .listen p_port p_recv_buffer_size, w =>
    (UDP.listen p_port p_recv_buffer_size w).map (fun r => (some r.1, r.2))
  | .close, w => some (none, UDP.close w)
  | .wait, w => (UDP.wait recv_buffer_size w).map (fun r => (some r.1, r.2))
  | .get_available_packet_count, w =>
    (UDP.get_available_packet_count recv_buffer_size w).map (fun r => (none, r.2))
  | .get_packet u, w => (UDP.get_packet recv_buffer_size u w).map (fun r => (some r.1.err, r.2))
  | .put_packet p_buffer, w => (UDP.put_packet p_buffer w).map (fun r => (some r.1, r.2))
  | .set_send_address p_address p_port, w => some (none, UDP.set_send_address p_address p_port w)

/-- A sequence of caller-facing operations, one after the other; `none` when one
of them does not return. -/
def run_calls (recv_buffer_size : Nat) : List Call → World → Option World
  | [], w => some w
  | c :: cs, w =>
    match c.run recv_buffer_size w with
    | none => none
    | some (_, w1) => run_calls recv_buffer_size cs w1

/-! ## Concrete peers and datagrams -/

/-- Locals of `get_packet` that happen to start out as zero. -/
def u0 : Uninit := ⟨0, [], [], 0⟩

/-- A fresh peer and a socket layer on which `_socket_create` answers handle 3,
`bind` answers 0, and `incoming` is what will arrive. -/
def fresh_world (incoming : List RecvEvent) : World :=
  { peer := PacketPeerUDPPosix.construct 1
    net := { incoming := incoming, send_results := [], socket_results := [3],
             bind_results := [0], log := [] } }

/-- The peer of `fresh_world` after a successful `listen(9000, p_recv_buffer_size)`
that leaves a ring buffer of `capacity` bytes. -/
def bound_world (capacity : Nat) (incoming : List RecvEvent) : World :=
  { peer := { PacketPeerUDPPosix.construct 1 with
                sockfd := 3
                rb := { capacity := capacity, data := [] } }
    net := { incoming := incoming, send_results := [], socket_results := [],
             bind_results := [],
             log := [Syscall.socket_create TYPE_ANY 3, Syscall.bind 3 9000 0] } }

/-- The datagram "ping" from 10.0.0.5:5000. -/
def ping : Datagram := (SockAddr.inet [10, 0, 0, 5] 5000, [112, 105, 110, 103])

/-- A datagram of three bytes from the IPv6 source [fe80::1]:6000. -/
def pong6 : Datagram :=
  (SockAddr.inet6 [254, 128, 0, 0, 0, 0, 0, 0, 0, 0, 0, 0, 0, 0, 0, 1] 6000, [7, 8, 9])

/-- A datagram of twenty bytes whose source is of no known family. -/
def stray : Datagram :=
  (SockAddr.other, [1, 2, 3, 4, 5, 6, 7, 8, 9, 1, 0, 0, 2, 0, 0, 0, 17, 18, 19, 20])

/-- The bound peer of `bound_world` with a destination set for sending, the
frame of "ping" queued, and a socket layer whose `sendto` calls answer
`send_results`. -/
def sending_world (send_results : List SendResult) : World :=
  { peer := { PacketPeerUDPPosix.construct 1 with
                sockfd := 3
                rb := { capacity := 1024, data := spec_frame ping.1 ping.2 }
                queue_count := 1
                peer_addr := IP_Address.ipv4 [10, 0, 0, 9]
                peer_port := 7000 }
    net := { incoming := [], send_results := send_results, socket_results := [],
             bind_results := [],
             log := [Syscall.socket_create TYPE_ANY 3, Syscall.bind 3 9000 0] } }

/-- A burst of two IPv4 datagrams, of three bytes and of one byte; their frames
take 16 and 14 bytes. -/
def burst16 : List Datagram := [(ping.1, [1, 2, 3]), (ping.1, [9])]

/-- The peer of `bound_world 1024` after a poll has queued the frame of `stray`:
tag `none`, port 0, length 20 and the payload. -/
def stray_queued : World :=
  { peer := { PacketPeerUDPPosix.construct 1 with
                sockfd := 3
                rb := { capacity := 1024, data := spec_frame stray.1 stray.2 }
                queue_count := 1 }
    net := { incoming := [], send_results := [], socket_results := [],
             bind_results := [],
             log := [Syscall.socket_create TYPE_ANY 3, Syscall.bind 3 9000 0,
                     Syscall.recvfrom 3 1012 true 20 0, Syscall.recvfrom 3 983 true (-1) EAGAIN] } }

/-- The result of `put_packet` on a valid socket in the words of the
specification, for a payload of `n` bytes and the answers of the successive
`sendto` calls: "retrying on `WouldBlock`-equivalent send conditions until the
full payload is accepted or a non-retryable error occurs, in which case it
returns `Failed`"; `none` when the answers end while it retries. -/
def spec_send_outcome (n : Nat) : List SendResult → Option Error
  | [] => none
  | SendResult.sent k :: _ => if k = n then some Error.OK else some Error.FAILED
  | SendResult.error e :: rest =>
    if e = EAGAIN then spec_send_outcome n rest else some Error.FAILED

/-- A peer that has been closed after `listen(9000, 1024)`, with a destination
set for sending, and a socket layer on which the next `_socket_create` calls
answer `socket_results` and the next `sendto` calls answer `send_results`. -/
def unbound_sender (socket_results : List Int) (send_results : List SendResult) : World :=
  { peer := { PacketPeerUDPPosix.construct 1 with
                rb := { capacity := 256, data := [] }
                peer_addr := IP_Address.ipv4 [10, 0, 0, 9]
                peer_port := 7000 }
    net := { incoming := [], send_results := send_results, socket_results := socket_results,
             bind_results := [],
             log := [Syscall.socket_create TYPE_ANY 3, Syscall.bind 3 9000 0, Syscall.close 3] } }

/-- A bound peer whose ring buffer of 16 bytes is filled by one queued frame of
16 bytes, with `incoming` still to arrive. -/
def full_world (incoming : List RecvEvent) : World :=
  { peer := { PacketPeerUDPPosix.construct 1 with
                sockfd := 3
                rb := { capacity := 16, data := spec_frame ping.1 [1, 2, 3] }
                queue_count := 1 }
    net := { incoming := incoming, send_results := [], socket_results := [],
             bind_results := [],
             log := [Syscall.socket_create TYPE_ANY 3, Syscall.bind 3 9000 0] } }

end UDP

/-!
# ConfigFile: the sections and keys of `core/io/config_file.cpp`

The store behind `set_value`, `get_value`, `has_section` and `has_section_key`.
-/

namespace Config

/-- Modelled from the spec: the type tags of `Variant`, which is declared in a
header that is not among the sources; the store is one of "key/value-sections",
and `NIL` is the tag of the null value. -/
inductive VariantType
  | NIL
  | INT
  | STRING
  deriving DecidableEq, Repr

/-- Modelled from the spec: a `Variant`, the value side of the "key/value"
store: the null value, an integer or a string. -/
inductive Variant
  | nil
  | int (v : Int)
  | string (s : String)
  deriving DecidableEq, Repr

/-- The method `Variant::get_type`. -/
def Variant.get_type : Variant → VariantType
  | .nil => VariantType.NIL
  | .int _ => VariantType.INT
  | .string _ => VariantType.STRING

/-- Modelled from the spec: the container `Map<K, V>` is declared in a header
that is not among the sources; it is the finite map behind the "key/value"
store, here the list of its entries.  The order of iteration is not modelled. -/
abbrev Map (K V : Type) := List (K × V)

namespace Map

variable {K V : Type} [DecidableEq K]

/-- The entry of key `k`: what the `const` `operator[]` and `find` look up. -/
def find : Map K V → K → Option V
  | [], _ => none
  | (k1, v) :: r, k => if k1 = k then some v else find r k

/-- The method `Map::has`. -/
def has (m : Map K V) (k : K) : Bool := (find m k).isSome

/-- The assignment `m[k] = v`: the entry of `k` is replaced, or added when there
is none. -/
def set : Map K V → K → V → Map K V
  | [], k, v => [(k, v)]
  | (k1, v1) :: r, k, v => if k1 = k then (k, v) :: r else (k1, v1) :: set r k v

/-- The method `Map::erase`: no entry of key `k` is left. -/
def erase : Map K V → K → Map K V
  | [], _ => []
  | (k1, v1) :: r, k => if k1 = k then erase r k else (k1, v1) :: erase r k

/-- The method `Map::empty`. -/
def empty (m : Map K V) : Bool := m.isEmpty

end Map

/-- The member `values` of `ConfigFile`: the keys of every section. -/
structure ConfigFile where
  values : Map String (Map String Variant)
  deriving DecidableEq, Repr

/-- The constructor `ConfigFile::ConfigFile()`: no section. -/
def ConfigFile.init : ConfigFile := { values := [] }

/-- The method `ConfigFile::set_value`.  `values[p_section]` is read after the
section is known to exist. -/
def set_value (cf : ConfigFile) (p_section p_key : String) (p_value : Variant) : ConfigFile :=
  if p_value.get_type = VariantType.NIL then
    if !Map.has cf.values p_section then cf
    else
      let section1 := Map.erase ((Map.find cf.values p_section).getD []) p_key
      let values1 := Map.set cf.values p_section section1
      if Map.empty section1 then { values := Map.erase values1 p_section }
      else { values := values1 }
  else
    let values1 :=
      if !Map.has cf.values p_section then Map.set cf.values p_section [] else cf.values
    { values := Map.set values1 p_section
        (Map.set ((Map.find values1 p_section).getD []) p_key p_value) }

/-- The method `ConfigFile::get_value`. -/
def get_value (cf : ConfigFile) (p_section p_key : String) (p_default : Variant) : Variant :=
  if !Map.has cf.values p_section then p_default
  else if !Map.has ((Map.find cf.values p_section).getD []) p_key then p_default
  else (Map.find ((Map.find cf.values p_section).getD []) p_key).getD Variant.nil

/-- The method `ConfigFile::has_section`. -/
def has_section (cf : ConfigFile) (p_section : String) : Bool :=
  Map.has cf.values p_section

/-- The method `ConfigFile::has_section_key`. -/
def has_section_key (cf : ConfigFile) (p_section p_key : String) : Bool :=
  if !Map.has cf.values p_section then false
  else Map.has ((Map.find cf.values p_section).getD []) p_key

/-- One `set_value` call: section, key, value. -/
abbrev SetCall := String × String × Variant

/-- A sequence of `set_value` calls, one after the other. -/
def set_values (cf : ConfigFile) (calls : List SetCall) : ConfigFile :=
  calls.foldl (fun c x => set_value c x.1 x.2.1 x.2.2) cf

/-- The reference map: the value of the last call `set_value(s, k, v)` among
`calls`, when there is one. -/
def last_set (calls : List SetCall) (s k : String) : Option Variant :=
  (calls.reverse.find? (fun x => decide (x.1 = s ∧ x.2.1 = k))).map (fun x => x.2.2)

/-- What the reference map holds for `(s, k)`: the last value set when it is
not nil. -/
def reference (calls : List SetCall) (s k : String) : Option Variant :=
  match last_set calls s k with
  | some v => if v.get_type = VariantType.NIL then none else some v
  | none => none

/-- What the store holds for a section and a key. -/
def stored (cf : ConfigFile) (s k : String) : Option Variant :=
  (Map.find cf.values s).bind (fun m => Map.find m k)

/-- Every stored section holds at least one key. -/
def sections_hold_keys (cf : ConfigFile) : Prop := ∀ e ∈ cf.values, e.2 ≠ []

/-- Some calls that set, overwrite and erase two keys of one section and one key
of another. -/
def sample_calls : List SetCall :=
  [("video", "width", Variant.int 800), ("video", "height", Variant.int 600),
   ("audio", "driver", Variant.string "alsa"), ("video", "width", Variant.int 1024),
   ("audio", "driver", Variant.nil), ("video", "depth", Variant.nil)]

end Config

namespace UDP

/-! ## Facts about the collaborators -/

theorem bytes_u32_u32_bytes (v : Nat) (h : v < 4294967296) : bytes_u32 (u32_bytes v) = v := by
  simp only [bytes_u32, u32_bytes, List.getD_cons_zero, List.getD_cons_succ]
  omega

theorem bytes_i32_u32_bytes (v : Nat) (h : v < 2147483648) :
    bytes_i32 (u32_bytes v) = (v : Int) := by
  unfold bytes_i32
  rw [bytes_u32_u32_bytes v (by omega)]
  simp [h]

theorem u32_bytes_length (v : Nat) : (u32_bytes v).length = 4 := rfl

theorem write__fits (rb : RingBuffer) (bs : List Nat) (h : rb.data.length + bs.length ≤ rb.capacity) :
    rb.write_ bs = { rb with data := rb.data ++ bs } := by
  unfold RingBuffer.write_ RingBuffer.write RingBuffer.space_left
  rw [if_pos (by omega)]
  rfl

theorem read_head (cap : Nat) (bs rest : List Nat) (n : Nat) (h : bs.length = n) :
    RingBuffer.read ⟨cap, bs ++ rest⟩ n = some (bs, ⟨cap, rest⟩) := by
  subst h
  unfold RingBuffer.read
  simp

theorem recv_len_fits (R : Nat) (rb : RingBuffer) (n : Nat) (hR : n ≤ R)
    (h : rb.data.length + 12 + n ≤ rb.capacity) : n ≤ (recv_len R rb).toNat := by
  unfold recv_len RingBuffer.space_left
  omega

theorem frame_size_inet (a : List Nat) (p : Nat) (payload : List Nat) :
    frame_size (.inet a p) payload = 1 + a.length + 4 + 4 + payload.length := by
  simp [frame_size, spec_frame, u32_bytes_length]
  omega

theorem frame_size_inet6 (a : List Nat) (p : Nat) (payload : List Nat) :
    frame_size (.inet6 a p) payload = 1 + a.length + 4 + 4 + payload.length := by
  simp [frame_size, spec_frame, u32_bytes_length]
  omega

theorem frame_size_other (payload : List Nat) :
    frame_size .other payload = 1 + 4 + 4 + payload.length := by
  simp [frame_size, spec_frame, u32_bytes_length]
  omega

/-- A datagram whose frame fits is stored as the frame the specification lays out. -/
theorem enqueue_fits (s : PacketPeerUDPPosix) (src : SockAddr) (payload : List Nat)
    (h : s.rb.data.length + frame_size src payload ≤ s.rb.capacity) :
    enqueue s src payload =
      { s with rb := { s.rb with data := s.rb.data ++ spec_frame src payload }
               queue_count := s.queue_count + 1 } := by
  cases src with
  | inet a p =>
    rw [frame_size_inet] at h
    simp only [enqueue, write_source]
    rw [write__fits _ [TYPE_IPV4] (by simp; omega)]
    rw [write__fits _ a (by simp; omega)]
    rw [write__fits _ (u32_bytes (ntohs p)) (by simp [u32_bytes_length]; omega)]
    rw [write__fits _ (u32_bytes payload.length) (by simp [u32_bytes_length]; omega)]
    rw [write__fits _ payload (by simp [u32_bytes_length]; omega)]
    simp [spec_frame]
  | inet6 a p =>
    rw [frame_size_inet6] at h
    simp only [enqueue, write_source]
    rw [write__fits _ [TYPE_IPV6] (by simp; omega)]
    rw [write__fits _ a (by simp; omega)]
    rw [write__fits _ (u32_bytes (ntohs p)) (by simp [u32_bytes_length]; omega)]
    rw [write__fits _ (u32_bytes payload.length) (by simp [u32_bytes_length]; omega)]
    rw [write__fits _ payload (by simp [u32_bytes_length]; omega)]
    simp [spec_frame]
  | other =>
    rw [frame_size_other] at h
    simp only [enqueue, write_source]
    rw [write__fits _ [TYPE_NONE] (by simp; omega)]
    rw [write__fits _ (u32_bytes 0) (by simp [u32_bytes_length]; omega)]
    rw [write__fits _ (u32_bytes payload.length) (by simp [u32_bytes_length]; omega)]
    rw [write__fits _ payload (by simp [u32_bytes_length]; omega)]
    simp [spec_frame]

/-- The decoder on a buffer that starts with the frame of a datagram of a known
family hands the datagram back and consumes exactly that frame. -/
theorem decode_frame (u : Uninit) (s : PacketPeerUDPPosix) (src : SockAddr) (payload rest : List Nat)
    (hsrc : known_source src) (hlen : payload.length < 4294967296)
    (hdata : s.rb.data = spec_frame src payload ++ rest) :
    decode u s =
      (⟨Error.OK, payload, payload.length⟩,
        { s with rb := { s.rb with data := rest }
                 packet_ip := source_address src
                 packet_port := source_port src
                 packet_buffer := payload ++ s.packet_buffer.drop payload.length
                 queue_count := s.queue_count - 1 }) := by
  obtain ⟨sockfd, ⟨cap, data⟩, qc, pip, pport, pbuf, paddr, peerport, ipt⟩ := s
  simp only at hdata
  subst hdata
  cases src with
  | inet a p =>
    obtain ⟨ha, hp⟩ := hsrc
    have e1 : RingBuffer.read ⟨cap, spec_frame (.inet a p) payload ++ rest⟩ 1
        = some ([TYPE_IPV4], ⟨cap, a ++ (u32_bytes (ntohs p) ++ (u32_bytes payload.length ++ (payload ++ rest)))⟩) := by
      have := read_head cap [TYPE_IPV4] (a ++ (u32_bytes (ntohs p) ++ (u32_bytes payload.length ++ (payload ++ rest)))) 1 rfl
      simpa [spec_frame] using this
    simp only [decode, read_, e1, Option.getD_some, if_true]
    rw [read_head cap a _ 4 ha]
    simp only [Option.getD_some]
    rw [read_head cap (u32_bytes (ntohs p)) _ 4 rfl]
    simp only
    rw [read_head cap (u32_bytes payload.length) _ 4 rfl]
    simp only
    rw [bytes_u32_u32_bytes _ hlen, read_head cap payload rest _ rfl]
    simp only [IP_Address.set_ipv4, source_address, source_port]
    rw [bytes_i32_u32_bytes _ (by unfold ntohs; omega)]
    simp [ntohs, Nat.mod_eq_of_lt hp]
  | inet6 a p =>
    obtain ⟨ha, hp⟩ := hsrc
    have e1 : RingBuffer.read ⟨cap, spec_frame (.inet6 a p) payload ++ rest⟩ 1
        = some ([TYPE_IPV6], ⟨cap, a ++ (u32_bytes (ntohs p) ++ (u32_bytes payload.length ++ (payload ++ rest)))⟩) := by
      have := read_head cap [TYPE_IPV6] (a ++ (u32_bytes (ntohs p) ++ (u32_bytes payload.length ++ (payload ++ rest)))) 1 rfl
      simpa [spec_frame] using this
    have hne : ¬ ([TYPE_IPV6] = [TYPE_IPV4]) := by decide
    simp only [decode, read_, e1, Option.getD_some, if_neg hne]
    rw [read_head cap a _ 16 ha]
    simp only [Option.getD_some]
    rw [read_head cap (u32_bytes (ntohs p)) _ 4 rfl]
    simp only
    rw [read_head cap (u32_bytes payload.length) _ 4 rfl]
    simp only
    rw [bytes_u32_u32_bytes _ hlen, read_head cap payload rest _ rfl]
    simp only [IP_Address.set_ipv6, source_address, source_port]
    rw [bytes_i32_u32_bytes _ (by unfold ntohs; omega)]
    simp [ntohs, Nat.mod_eq_of_lt hp]
  | other => exact absurd hsrc (by simp [known_source])

theorem known_source_header (src : SockAddr) (payload : List Nat) (h : known_source src) :
    13 + payload.length ≤ frame_size src payload := by
  cases src with
  | inet a p => rw [frame_size_inet]; have := h.1; omega
  | inet6 a p => rw [frame_size_inet6]; have := h.1; omega
  | other => exact absurd h (by simp [known_source])

theorem spec_frames_length_cons (d : Datagram) (ds : List Datagram) :
    (spec_frames (d :: ds)).length = frame_size d.1 d.2 + (spec_frames ds).length := by
  simp [spec_frames, frame_size]

/-- A burst of datagrams of known families whose frames all fit is stored frame
after frame, whatever follows it; each receive returns a positive count. -/
theorem poll_loop_burst (R : Nat) (p_wait : Bool) (ds : List Datagram) :
    ∀ (tail : List RecvEvent) (s : PacketPeerUDPPosix) (log : List Syscall),
      (∀ d ∈ ds, known_source d.1 ∧ d.2 ≠ [] ∧ d.2.length ≤ R) →
      s.rb.data.length + (spec_frames ds).length ≤ s.rb.capacity →
      ∃ calls : List Syscall,
        (∀ c ∈ calls, ∃ l k, c = Syscall.recvfrom s.sockfd l (!p_wait) k 0 ∧ 0 < k)
        ∧ calls.length = ds.length
        ∧ poll_loop R p_wait (arrivals ds ++ tail) s log =
          poll_loop R p_wait tail
            { s with rb := { s.rb with data := s.rb.data ++ spec_frames ds }
                     queue_count := s.queue_count + ds.length } (log ++ calls) := by
  induction ds with
  | nil =>
    intro tail s log _ _
    exact ⟨[], by simp, rfl, by simp [arrivals, spec_frames]⟩
  | cons d ds ih =>
    intro tail s log hds hfit
    obtain ⟨hk, hne, hR⟩ := hds d (List.mem_cons_self _ _)
    rw [spec_frames_length_cons] at hfit
    have hhdr := known_source_header d.1 d.2 hk
    have htake : List.take (recv_len R s.rb).toNat d.2 = d.2 :=
      List.take_of_length_le (recv_len_fits R s.rb d.2.length hR (by omega))
    have hpos : (0 : Int) < (d.2.length : Int) := by
      have : 0 < d.2.length := List.length_pos.mpr hne
      omega
    have henq := enqueue_fits s d.1 d.2 (by omega)
    obtain ⟨calls, hc1, hc2, h1⟩ := ih tail (enqueue s d.1 d.2)
      (log ++ [Syscall.recvfrom s.sockfd (recv_len R s.rb) (!p_wait) (d.2.length : Int) 0])
      (fun e he => hds e (List.mem_cons_of_mem _ he))
      (by rw [henq]; simp only [List.length_append]
          have : (spec_frame d.1 d.2).length = frame_size d.1 d.2 := rfl
          omega)
    refine ⟨Syscall.recvfrom s.sockfd (recv_len R s.rb) (!p_wait) (d.2.length : Int) 0 :: calls,
      ?_, by simp [hc2], ?_⟩
    · intro c hc
      rcases List.mem_cons.mp hc with hc | hc
      · exact ⟨_, _, hc, hpos⟩
      · exact hc1 c hc
    have hstep : poll_loop R p_wait (arrivals (d :: ds) ++ tail) s log =
        poll_loop R p_wait (arrivals ds ++ tail) (enqueue s d.1 d.2)
          (log ++ [Syscall.recvfrom s.sockfd (recv_len R s.rb) (!p_wait) (d.2.length : Int) 0]) := by
      show poll_loop R p_wait (RecvEvent.datagram d.1 d.2 :: (arrivals ds ++ tail)) s log = _
      simp only [poll_loop, htake]
      rw [if_pos (by simpa using hpos)]
    rw [hstep, h1, henq]
    simp [spec_frames, Nat.add_assoc, Nat.add_comm 1]

/-- A non-blocking poll on a bound peer stores a burst that fits and returns `OK`. -/
theorem poll_burst (R : Nat) (ds : List Datagram) (w : World)
    (hbound : w.peer.sockfd ≠ -1) (hin : w.net.incoming = arrivals ds)
    (hds : ∀ d ∈ ds, known_source d.1 ∧ d.2 ≠ [] ∧ d.2.length ≤ R)
    (hfit : w.peer.rb.data.length + (spec_frames ds).length ≤ w.peer.rb.capacity) :
    ∃ log1, _poll R false w = some (Error.OK,
      { peer := { w.peer with rb := { w.peer.rb with data := w.peer.rb.data ++ spec_frames ds }
                              queue_count := w.peer.queue_count + ds.length }
        net := { w.net with incoming := [], log := log1 } }) := by
  obtain ⟨calls, _, _, h1⟩ := poll_loop_burst R false ds [] w.peer w.net.log hds hfit
  rw [List.append_nil] at h1
  refine ⟨w.net.log ++ calls ++ [Syscall.recvfrom w.peer.sockfd (recv_len R
    { w.peer.rb with data := w.peer.rb.data ++ spec_frames ds }) true (-1) EAGAIN], ?_⟩
  simp only [_poll, recv_loop, if_neg hbound, hin]
  rw [h1]
  simp [poll_loop, EAGAIN]

/-- A non-blocking poll on a bound peer with nothing pending returns `OK` and
only issues one receive. -/
theorem poll_nothing (R : Nat) (w : World)
    (hbound : w.peer.sockfd ≠ -1) (hin : w.net.incoming = []) :
    _poll R false w = some (Error.OK,
      { w with net := { w.net with log := w.net.log ++
          [Syscall.recvfrom w.peer.sockfd (recv_len R w.peer.rb) true (-1) EAGAIN] } }) := by
  obtain ⟨peer, net⟩ := w
  obtain ⟨inc, sr, cr, br, log⟩ := net
  simp only at hin hbound
  subst hin
  simp [_poll, recv_loop, hbound, poll_loop, EAGAIN]

theorem get_packets_frames (R : Nat) (u : Uninit) (hR : R < 2147483648) (ds : List Datagram) :
    ∀ (w : World), w.peer.sockfd ≠ -1 → w.net.incoming = [] →
      w.peer.rb.data = spec_frames ds → w.peer.queue_count = ds.length →
      (∀ d ∈ ds, known_source d.1 ∧ d.2 ≠ [] ∧ d.2.length ≤ R) →
      ∃ w2, get_packets R u ds.length w = some (ds.map delivery_of, w2)
        ∧ w2.peer.rb.data = [] ∧ w2.peer.queue_count = 0 ∧ w2.peer.sockfd = w.peer.sockfd := by
  induction ds with
  | nil =>
    intro w _ _ hdata hq _
    exact ⟨w, rfl, by simpa [spec_frames] using hdata, by simpa using hq, rfl⟩
  | cons d ds ih =>
    intro w hbound hin hdata hq hds
    obtain ⟨hk, hne, hdR⟩ := hds d (List.mem_cons_self _ _)
    have hp := poll_nothing R w hbound hin
    have hdec := decode_frame u w.peer d.1 d.2 (spec_frames ds) hk (by omega) (by simpa [spec_frames] using hdata)
    have hq1 : ¬ (w.peer.queue_count = 0) := by rw [hq]; simp
    obtain ⟨w2, h2, h3, h4, h5⟩ := ih
      { peer := { w.peer with rb := { w.peer.rb with data := spec_frames ds }
                              packet_ip := source_address d.1
                              packet_port := source_port d.1
                              packet_buffer := d.2 ++ w.peer.packet_buffer.drop d.2.length
                              queue_count := w.peer.queue_count - 1 }
        net := { w.net with log := w.net.log ++
          [Syscall.recvfrom w.peer.sockfd (recv_len R w.peer.rb) true (-1) EAGAIN] } }
      hbound hin rfl (by simp [hq]) (fun e he => hds e (List.mem_cons_of_mem _ he))
    refine ⟨w2, ?_, h3, h4, h5⟩
    simp only [List.length_cons, get_packets, get_packet, hp]
    simp only [ne_eq, not_true_eq_false, if_false, hq1]
    rw [hdec]
    simp only [h2]
    simp [delivery_of, get_packet_address, get_packet_port]

/-- C1. FIFO delivery: on a bound peer with an empty queue, a burst of `N`
datagrams with IPv4 or IPv6 sources and non-empty payloads whose frames all fit
in the ring buffer is taken in by one non-blocking `_poll`, which returns `OK`;
with nothing further arriving, `N` successive `get_packet` calls all return `OK`
and hand the payloads over in arrival order, and after the i-th call
`get_packet_address()` and `get_packet_port()` are the source of the i-th
datagram; the queue is empty afterwards. -/
theorem fifo_delivery (R : Nat) (u : Uninit) (ds : List Datagram) (w : World)
    (hR : R < 2147483648)
    (hbound : w.peer.sockfd ≠ -1)
    (hempty : w.peer.rb.data = []) (hq : w.peer.queue_count = 0)
    (hin : w.net.incoming = arrivals ds)
    (hds : ∀ d ∈ ds, known_source d.1 ∧ d.2 ≠ [] ∧ d.2.length ≤ R)
    (hfit : (spec_frames ds).length ≤ w.peer.rb.capacity) :
    ∃ w1 w2, _poll R false w = some (Error.OK, w1)
      ∧ w1.peer.queue_count = ds.length
      ∧ get_packets R u ds.length w1 = some (ds.map delivery_of, w2)
      ∧ w2.peer.queue_count = 0 ∧ w2.peer.rb.data = [] := by
  obtain ⟨log1, hp⟩ := poll_burst R ds w hbound hin hds (by rw [hempty]; simpa using hfit)
  obtain ⟨w2, h2, h3, h4, _⟩ := get_packets_frames R u hR ds
    { peer := { w.peer with rb := { w.peer.rb with data := w.peer.rb.data ++ spec_frames ds }
                            queue_count := w.peer.queue_count + ds.length }
      net := { w.net with incoming := [], log := log1 } }
    hbound rfl (by simp [hempty]) (by simp [hq]) hds
  exact ⟨_, w2, hp, by simp [hq], h2, h4, h3⟩

/-- C1, at a concrete input: after `listen(9000, 1024)` the datagrams "ping"
(IPv4) and a three-byte IPv6 datagram come back in this order. -/
theorem fifo_delivery_witness :
    ∃ w1 w2, _poll 65536 false (bound_world 1024 (arrivals [ping, pong6])) = some (Error.OK, w1)
      ∧ w1.peer.queue_count = 2
      ∧ get_packets 65536 u0 2 w1 = some ([delivery_of ping, delivery_of pong6], w2)
      ∧ w2.peer.queue_count = 0 ∧ w2.peer.rb.data = [] :=
  fifo_delivery 65536 u0 [ping, pong6] (bound_world 1024 (arrivals [ping, pong6]))
    (by decide) (by decide) rfl rfl rfl (by decide) (by decide)

theorem get_packet_frame (R : Nat) (u : Uninit) (w : World) (src : SockAddr)
    (payload rest : List Nat)
    (hbound : w.peer.sockfd ≠ -1) (hin : w.net.incoming = [])
    (hq : w.peer.queue_count ≠ 0)
    (hsrc : known_source src) (hlen : payload.length < 4294967296)
    (hdata : w.peer.rb.data = spec_frame src payload ++ rest) :
    get_packet R u w = some (⟨Error.OK, payload, payload.length⟩,
      { peer := { w.peer with rb := { w.peer.rb with data := rest }
                              packet_ip := source_address src
                              packet_port := source_port src
                              packet_buffer := payload ++ w.peer.packet_buffer.drop payload.length
                              queue_count := w.peer.queue_count - 1 }
        net := { w.net with log := w.net.log ++
          [Syscall.recvfrom w.peer.sockfd (recv_len R w.peer.rb) true (-1) EAGAIN] } }) := by
  have hp := poll_nothing R w hbound hin
  have hdec := decode_frame u w.peer src payload rest hsrc hlen hdata
  simp only [get_packet, hp]
  simp only [ne_eq, not_true_eq_false, if_false, hq]
  rw [hdec]

/-- C2. Address round-trip for known families: on a bound peer with an empty
queue, a datagram with an IPv4 source (4 address bytes `a`, port `p`) or an
IPv6 source (16 address bytes) and non-empty payload `d`, whose frame fits in
the ring buffer, is written by `_poll` as tag, address bytes, port, length and
payload; the next `get_packet` returns `OK` with payload `d` and size `|d|`,
sets the packet address to exactly the bytes `a` and the packet port to `p`,
and consumes exactly the bytes written, leaving the buffer empty. -/
theorem address_round_trip (R : Nat) (u : Uninit) (w : World) (src : SockAddr) (d : List Nat)
    (hR : R < 2147483648)
    (hbound : w.peer.sockfd ≠ -1)
    (hempty : w.peer.rb.data = []) (hq : w.peer.queue_count = 0)
    (hsrc : known_source src) (hne : d ≠ []) (hd : d.length ≤ R)
    (hfit : frame_size src d ≤ w.peer.rb.capacity)
    (hin : w.net.incoming = [RecvEvent.datagram src d]) :
    ∃ w1 w2, _poll R false w = some (Error.OK, w1)
      ∧ w1.peer.rb.data = spec_frame src d ∧ w1.peer.queue_count = 1
      ∧ get_packet R u w1 = some (⟨Error.OK, d, d.length⟩, w2)
      ∧ (∀ a p, src = SockAddr.inet a p →
          w1.peer.rb.data = [TYPE_IPV4] ++ a ++ u32_bytes p ++ u32_bytes d.length ++ d
          ∧ get_packet_address w2 = IP_Address.ipv4 a ∧ get_packet_port w2 = (p : Int))
      ∧ (∀ a p, src = SockAddr.inet6 a p →
          w1.peer.rb.data = [TYPE_IPV6] ++ a ++ u32_bytes p ++ u32_bytes d.length ++ d
          ∧ get_packet_address w2 = IP_Address.ipv6 a ∧ get_packet_port w2 = (p : Int))
      ∧ w2.peer.rb.data = [] ∧ w2.peer.rb.capacity = w.peer.rb.capacity
      ∧ w2.peer.queue_count = 0 := by
  obtain ⟨log1, hp⟩ := poll_burst R [(src, d)] w hbound (by simp [hin, arrivals])
    (by simpa using ⟨hsrc, hne, hd⟩)
    (by rw [hempty]; simpa [spec_frames, frame_size] using hfit)
  have hg := get_packet_frame R u
    { peer := { w.peer with rb := { w.peer.rb with data := w.peer.rb.data ++ spec_frames [(src, d)] }
                            queue_count := w.peer.queue_count + [(src, d)].length }
      net := { w.net with incoming := [], log := log1 } } src d []
    hbound rfl (by simp) hsrc (by omega) (by simp [hempty, spec_frames])
  refine ⟨_, _, hp, by simp [hempty, spec_frames], by simp [hq], hg, ?_, ?_, rfl, rfl, by simp [hq]⟩
  · intro a p h
    subst h
    have hp16 : p % 65536 = p := Nat.mod_eq_of_lt hsrc.2
    simp [hempty, spec_frames, spec_frame, ntohs, hp16, get_packet_address, get_packet_port,
      source_address, source_port]
  · intro a p h
    subst h
    have hp16 : p % 65536 = p := Nat.mod_eq_of_lt hsrc.2
    simp [hempty, spec_frames, spec_frame, ntohs, hp16, get_packet_address, get_packet_port,
      source_address, source_port]

/-- C2, at a concrete input: "ping" from 10.0.0.5:5000 into a buffer of 1024
bytes is stored as 17 bytes and comes back with its address and port. -/
theorem address_round_trip_witness :
    ∃ w1 w2, _poll 65536 false (bound_world 1024 [RecvEvent.datagram ping.1 ping.2])
        = some (Error.OK, w1)
      ∧ w1.peer.rb.data = [1, 10, 0, 0, 5, 136, 19, 0, 0, 4, 0, 0, 0, 112, 105, 110, 103]
      ∧ get_packet 65536 u0 w1 = some (⟨Error.OK, [112, 105, 110, 103], 4⟩, w2)
      ∧ get_packet_address w2 = IP_Address.ipv4 [10, 0, 0, 5]
      ∧ get_packet_port w2 = 5000
      ∧ w2.peer.rb.data = [] ∧ w2.peer.queue_count = 0 := by
  obtain ⟨w1, w2, h1, h2, _, h4, h5, _, h7, _, h9⟩ :=
    address_round_trip 65536 u0 (bound_world 1024 [RecvEvent.datagram ping.1 ping.2])
      ping.1 ping.2 (by decide) (by decide) rfl rfl (by decide) (by decide) (by decide)
      (by decide) rfl
  exact ⟨w1, w2, h1, h2, h4, (h5 _ _ rfl).2.1, (h5 _ _ rfl).2.2, h7, h9⟩

/-- C3. Unknown-family round-trip, evaluated on the code: a datagram of twenty
bytes from a source of no known family is written as tag `none`, no address
bytes, port, length and payload (29 bytes), but `get_packet` reads sixteen
address bytes after the tag: it returns two bytes of the payload as the packet,
reports a non-empty address made of the port, the length and the first eight
payload bytes, takes the port from the payload, and leaves two bytes of the
frame in the ring buffer. -/
theorem unknown_family_frame_misread (u : Uninit) :
    (_poll 65536 false (bound_world 1024 [RecvEvent.datagram stray.1 stray.2])).map
        (fun r => (r.1, r.2.peer.rb.data, r.2.peer.queue_count))
      = some (Error.OK, spec_frame SockAddr.other stray.2, 1)
    ∧ ((_poll 65536 false (bound_world 1024 [RecvEvent.datagram stray.1 stray.2])).bind
        (fun r => get_packet 65536 u r.2)).map
        (fun r => (r.1, get_packet_address r.2, get_packet_port r.2, r.2.peer.rb.data,
          r.2.peer.queue_count))
      = some (⟨Error.OK, [17, 18], 2⟩,
          IP_Address.ipv6 [0, 0, 0, 0, 20, 0, 0, 0, 1, 2, 3, 4, 5, 6, 7, 8],
          265, [19, 20], 0) := by
  constructor
  · rfl
  · rfl

/-- C4. Queue-depth consistency, evaluated on the code: after `listen(9000, 16)`
on a fresh peer, the four-byte datagram "ping" from an IPv4 source makes
`get_available_packet_count` return 1 although the ring buffer holds only the
13 header bytes of the frame: the receive was issued with length 16 - 12 = 4,
the header took 13 of the 16 bytes and the payload write failed for lack of
space, yet `queue_count` was incremented.  The state reached is not queue-depth
consistent, whereas with `listen(9000, 1024)` the same datagram leaves a
consistent state. -/
theorem queue_depth_counts_truncated_frame :
    ((listen 9000 16 (fresh_world [RecvEvent.datagram ping.1 ping.2])).bind
        (fun r => get_available_packet_count 65536 r.2)).map
        (fun r => (r.1, issued (bound_world 16 []) r.2))
      = some (1, [Syscall.recvfrom 3 4 true 4 0, Syscall.recvfrom 3 0 true (-1) EAGAIN])
    ∧ (run_calls 65536 [Call.listen 9000 16, Call.get_available_packet_count]
        (fresh_world [RecvEvent.datagram ping.1 ping.2])).map
        (fun w => (w.peer.queue_count, w.peer.rb.capacity, w.peer.rb.data,
          decide (queue_consistent w.peer)))
      = some (1, 16, [1, 10, 0, 0, 5, 136, 19, 0, 0, 4, 0, 0, 0], false)
    ∧ (run_calls 65536 [Call.listen 9000 1024, Call.get_available_packet_count]
        (fresh_world [RecvEvent.datagram ping.1 ping.2])).map
        (fun w => (w.peer.queue_count, w.peer.rb.data, decide (queue_consistent w.peer)))
      = some (1, spec_frame ping.1 ping.2, true) := by
  decide

theorem enqueue_sockfd (s : PacketPeerUDPPosix) (src : SockAddr) (buf : List Nat) :
    (enqueue s src buf).sockfd = s.sockfd := rfl

theorem enqueue_queue_count (s : PacketPeerUDPPosix) (src : SockAddr) (buf : List Nat) :
    (enqueue s src buf).queue_count = s.queue_count + 1 := rfl

/-- The shape of every run of the receive loop that ends: some receives that
each returned a positive count and enqueued a frame, then one last receive that
returned 0 or -1; all are issued with the same flag. -/
theorem poll_loop_exit (R : Nat) (p_wait : Bool) :
    ∀ (inc : List RecvEvent) (s : PacketPeerUDPPosix) (log : List Syscall) (x : LoopExit),
      poll_loop R p_wait inc s log = some x →
      ∃ (pre : List Syscall) (len : Int),
        x.log = log ++ pre ++ [Syscall.recvfrom s.sockfd len (!p_wait) x.ret x.errno]
        ∧ (∀ c ∈ pre, ∃ l r, c = Syscall.recvfrom s.sockfd l (!p_wait) r 0 ∧ 0 < r)
        ∧ x.peer.sockfd = s.sockfd
        ∧ x.peer.queue_count = s.queue_count + pre.length
        ∧ (x.ret = 0 ∨ x.ret = -1) := by
  intro inc
  induction inc with
  | nil =>
    intro s log x h
    cases p_wait with
    | true => simp [poll_loop] at h
    | false =>
      simp only [poll_loop, Bool.false_eq_true, if_false, Option.some.injEq] at h
      subst h
      exact ⟨[], recv_len R s.rb, by simp, by simp, rfl, rfl, Or.inr rfl⟩
  | cons e rest ih =>
    intro s log x h
    cases e with
    | idle =>
      cases p_wait with
      | true =>
        simp only [poll_loop, if_true] at h
        exact ih s log x h
      | false =>
        simp only [poll_loop, Bool.false_eq_true, if_false, Option.some.injEq] at h
        subst h
        exact ⟨[], recv_len R s.rb, by simp, by simp, rfl, rfl, Or.inr rfl⟩
    | error e =>
      simp only [poll_loop, Option.some.injEq] at h
      subst h
      exact ⟨[], recv_len R s.rb, by simp, by simp, rfl, rfl, Or.inr rfl⟩
    | datagram src payload =>
      simp only [poll_loop] at h
      split at h
      · rename_i hpos
        obtain ⟨pre, len, h1, h2, h3, h4, h5⟩ := ih _ _ x h
        refine ⟨Syscall.recvfrom s.sockfd (recv_len R s.rb) (!p_wait)
          ((List.take (recv_len R s.rb).toNat payload).length : Int) 0 :: pre, len, ?_, ?_, ?_, ?_, h5⟩
        · rw [h1, enqueue_sockfd]; simp
        · intro c hc
          rcases List.mem_cons.mp hc with hc | hc
          · exact ⟨_, _, hc, hpos⟩
          · rw [enqueue_sockfd] at h2; exact h2 c hc
        · rw [h3, enqueue_sockfd]
        · rw [h4, enqueue_queue_count]; simp; omega
      · rename_i hpos
        simp only [Option.some.injEq] at h
        subst h
        refine ⟨[], recv_len R s.rb, by simp, by simp, rfl, rfl, Or.inl ?_⟩
        simp only
        omega

/-- A non-blocking run of the receive loop always ends. -/
theorem poll_loop_total (R : Nat) :
    ∀ (inc : List RecvEvent) (s : PacketPeerUDPPosix) (log : List Syscall),
      ∃ x, poll_loop R false inc s log = some x := by
  intro inc
  induction inc with
  | nil => intro s log; simp [poll_loop]
  | cons e rest ih =>
    intro s log
    cases e with
    | idle => simp [poll_loop]
    | error e => simp [poll_loop]
    | datagram src payload =>
      simp only [poll_loop]
      split
      · exact ih _ _
      · exact ⟨_, rfl⟩

theorem recv_loop_exit (R : Nat) (p_wait : Bool) (w : World) (x : LoopExit)
    (h : recv_loop R p_wait w = some x) :
    ∃ (pre : List Syscall) (len : Int),
      x.log = w.net.log ++ pre ++ [Syscall.recvfrom w.peer.sockfd len (!p_wait) x.ret x.errno]
      ∧ (∀ c ∈ pre, ∃ l r, c = Syscall.recvfrom w.peer.sockfd l (!p_wait) r 0 ∧ 0 < r)
      ∧ x.peer.sockfd = w.peer.sockfd
      ∧ x.peer.queue_count = w.peer.queue_count + pre.length
      ∧ (x.ret = 0 ∨ x.ret = -1) := by
  unfold recv_loop at h
  split at h
  · simp only [Option.some.injEq] at h
    subst h
    exact ⟨[], recv_len R w.peer.rb, by simp, by simp, rfl, rfl, Or.inr rfl⟩
  · exact poll_loop_exit R p_wait _ _ _ x h

theorem recv_loop_total (R : Nat) (w : World) : ∃ x, recv_loop R false w = some x := by
  unfold recv_loop
  split
  · exact ⟨_, rfl⟩
  · exact poll_loop_total R _ _ _

theorem recv_results_append (a b : List Syscall) :
    recv_results (a ++ b) = recv_results a ++ recv_results b := by
  induction a with
  | nil => rfl
  | cons c cs ih => cases c <;> simp [recv_results, ih]

theorem recv_flags_append (a b : List Syscall) :
    recv_flags (a ++ b) = recv_flags a ++ recv_flags b := by
  induction a with
  | nil => rfl
  | cons c cs ih => cases c <;> simp [recv_flags, ih]

theorem recv_results_received (fd : Int) (flag : Bool) (pre : List Syscall)
    (h : ∀ c ∈ pre, ∃ l r, c = Syscall.recvfrom fd l flag r 0 ∧ 0 < r) :
    (recv_results pre).length = pre.length ∧ (∀ p ∈ recv_results pre, 0 < p.1)
      ∧ (∀ f ∈ recv_flags pre, f = flag) ∧ (∀ c ∈ pre, ∀ fd1, c ≠ Syscall.close fd1) := by
  induction pre with
  | nil => simp [recv_results, recv_flags]
  | cons c cs ih =>
    obtain ⟨l, r, hc, hr⟩ := h c (List.mem_cons_self _ _)
    obtain ⟨h1, h2, h3, h4⟩ := ih (fun d hd => h d (List.mem_cons_of_mem _ hd))
    subst hc
    refine ⟨by simp [recv_results, h1], ?_, ?_, ?_⟩
    · intro p hp
      simp only [recv_results, List.mem_cons] at hp
      rcases hp with hp | hp
      · subst hp; exact hr
      · exact h2 p hp
    · intro f hf
      simp only [recv_flags, List.mem_cons] at hf
      rcases hf with hf | hf
      · exact hf
      · exact h3 f hf
    · intro d hd fd1
      rcases List.mem_cons.mp hd with hd | hd
      · subst hd; simp
      · exact h4 d hd fd1

theorem issued_append (w w1 : World) (extra : List Syscall) (h : w1.net.log = w.net.log ++ extra) :
    issued w w1 = extra := by
  unfold issued
  rw [h]
  simp

/-- Every `_poll` that returns: receives that each enqueued a frame, then one
last receive; `OK` when the last one reported `EAGAIN`, else `FAILED` after
`close()`. -/
theorem poll_shape (R : Nat) (p_wait : Bool) (w : World) (r : Error) (w1 : World)
    (h : _poll R p_wait w = some (r, w1)) :
    ∃ (pre : List Syscall) (len ret : Int) (errno : Nat),
      (∀ c ∈ pre, ∃ l k, c = Syscall.recvfrom w.peer.sockfd l (!p_wait) k 0 ∧ 0 < k)
      ∧ (ret = 0 ∨ ret = -1)
      ∧ ((r = Error.OK ∧ ret = -1 ∧ errno = EAGAIN
            ∧ w1.net.log = w.net.log ++ (pre ++
                [Syscall.recvfrom w.peer.sockfd len (!p_wait) ret errno])
            ∧ w1.peer.sockfd = w.peer.sockfd
            ∧ w1.peer.queue_count = w.peer.queue_count + pre.length)
         ∨ (r = Error.FAILED ∧ (ret = 0 ∨ (ret = -1 ∧ errno ≠ EAGAIN))
            ∧ w1.net.log = w.net.log ++ (pre ++
                [Syscall.recvfrom w.peer.sockfd len (!p_wait) ret errno] ++
                (if w.peer.sockfd ≠ -1 then [Syscall.close w.peer.sockfd] else []))
            ∧ w1.peer.sockfd = -1
            ∧ w1.peer.queue_count = 0
            ∧ w1.peer.rb = { capacity := 2 ^ 8, data := [] })) := by
  unfold _poll at h
  split at h
  · exact absurd h (by simp)
  · rename_i x hx
    obtain ⟨pre, len, h1, h2, h3, h4, h5⟩ := recv_loop_exit R p_wait w x hx
    refine ⟨pre, len, x.ret, x.errno, h2, h5, ?_⟩
    simp only at h
    split at h
    · rename_i hc
      simp only [Option.some.injEq, Prod.mk.injEq] at h
      obtain ⟨hr, hw⟩ := h
      subst hr hw
      refine Or.inr ⟨rfl, hc, ?_, rfl, rfl, rfl⟩
      by_cases hfd : w.peer.sockfd = -1
      · simp [close, h3, hfd, h1]
      · simp [close, h3, hfd, h1]
    · rename_i hc
      simp only [Option.some.injEq, Prod.mk.injEq] at h
      obtain ⟨hr, hw⟩ := h
      subst hr hw
      refine Or.inl ⟨rfl, ?_, ?_, by simp [h1], h3, h4⟩
      · rcases h5 with h5 | h5
        · exact absurd (Or.inl h5) hc
        · exact h5
      · by_contra hne
        rcases h5 with h5 | h5
        · exact hc (Or.inl h5)
        · exact hc (Or.inr ⟨h5, hne⟩)

/-- C6 (amended). Poll outcome classification: a non-blocking `_poll` always
returns, with `OK` or `FAILED` and nothing else.  Every receive before the last
returned a positive count.  `_poll` returns `OK` exactly when the last receive
reported `EAGAIN`; then the socket handle is unchanged, no `close` was issued
and the queue depth grew by one for every earlier receive.  It returns `FAILED`
exactly when the last receive returned 0 bytes or failed with an `errno` other
than `EAGAIN`; then `close()` has run: the handle is -1, the queue depth 0, the
ring buffer empty, and a handle that was valid has been closed last. -/
theorem poll_outcome (R : Nat) (w : World) :
    ∃ r w1 ret errno, _poll R false w = some (r, w1)
      ∧ (recv_results (issued w w1)).getLast? = some (ret, errno)
      ∧ (∀ p ∈ (recv_results (issued w w1)).dropLast, 0 < p.1)
      ∧ (r = Error.OK ∨ r = Error.FAILED)
      ∧ (r = Error.OK ↔ (ret = -1 ∧ errno = EAGAIN))
      ∧ (r = Error.FAILED ↔ (ret = 0 ∨ (ret = -1 ∧ errno ≠ EAGAIN)))
      ∧ (r = Error.OK → w1.peer.sockfd = w.peer.sockfd
          ∧ w1.peer.queue_count = w.peer.queue_count + ((recv_results (issued w w1)).length - 1)
          ∧ ∀ c ∈ issued w w1, ∀ fd, c ≠ Syscall.close fd)
      ∧ (r = Error.FAILED → w1.peer.sockfd = -1 ∧ w1.peer.queue_count = 0
          ∧ w1.peer.rb.data = []
          ∧ (w.peer.sockfd ≠ -1 → (issued w w1).getLast? = some (Syscall.close w.peer.sockfd))) := by
  obtain ⟨x, hx⟩ := recv_loop_total R w
  have hsome : ∃ r w1, _poll R false w = some (r, w1) := by
    unfold _poll
    rw [hx]
    simp only
    split <;> exact ⟨_, _, rfl⟩
  obtain ⟨r, w1, hp⟩ := hsome
  obtain ⟨pre, len, ret, errno, hpre, hret, hcase⟩ := poll_shape R false w r w1 hp
  obtain ⟨hlen, hposs, _, hnoclose⟩ := recv_results_received _ _ pre hpre
  refine ⟨r, w1, ret, errno, hp, ?_⟩
  rcases hcase with ⟨hr, hret1, herr, hlog, hfd, hq⟩ | ⟨hr, hbad, hlog, hfd, hq, hrb⟩
  · have hiss := issued_append w w1 _ hlog
    subst hr
    rw [hiss]
    refine ⟨by simp [recv_results_append, recv_results], ?_, Or.inl rfl, ?_, ?_, ?_, ?_⟩
    · simpa [recv_results_append, recv_results] using hposs
    · simp [hret1, herr]
    · simp [hret1, herr]
    · intro _
      refine ⟨hfd, ?_, ?_⟩
      · simp [recv_results_append, recv_results, hlen, hq]
      · intro c hc fd
        rcases List.mem_append.mp hc with hc | hc
        · exact hnoclose c hc fd
        · simp only [List.mem_singleton] at hc
          subst hc
          simp
    · intro h
      exact absurd h (by decide)
  · have hiss := issued_append w w1 _ hlog
    subst hr
    rw [hiss]
    have hres : recv_results (pre ++ [Syscall.recvfrom w.peer.sockfd len (!false) ret errno] ++
        (if w.peer.sockfd ≠ -1 then [Syscall.close w.peer.sockfd] else []))
        = recv_results pre ++ [(ret, errno)] := by
      by_cases hb : w.peer.sockfd = -1 <;> simp [recv_results_append, recv_results, hb]
    rw [hres]
    refine ⟨by simp, ?_, Or.inr rfl, ?_, ?_, ?_, ?_⟩
    · simpa using hposs
    · constructor
      · intro h; exact absurd h (by decide)
      · rintro ⟨h1, h2⟩
        rcases hbad with h0 | ⟨_, hne⟩
        · omega
        · exact absurd h2 hne
    · simp [hbad]
    · intro h
      exact absurd h (by decide)
    · intro _
      refine ⟨hfd, hq, by rw [hrb], ?_⟩
      intro hb
      simp [hb]

theorem recv_len_full (R : Nat) (rb : RingBuffer) (h : rb.capacity ≤ rb.data.length + 12) :
    recv_len R rb = 0 := by
  unfold recv_len RingBuffer.space_left
  omega

/-- C5, counterexample: a ring buffer of 16 bytes and a burst of two IPv4
datagrams whose frames take 16 + 14 = 30 bytes.  The first frame fits exactly;
the poll does not return `OK` with that frame kept: the second receive is issued
with length 0, returns 0, and `_poll` returns `FAILED` with the socket closed
and the ring buffer emptied. -/
theorem overflow_burst_closes_socket :
    (spec_frames burst16).length = 30
    ∧ (spec_frame ping.1 [1, 2, 3]).length = 16
    ∧ (_poll 65536 false (bound_world 16 (arrivals burst16))).map
        (fun r => (r.1, r.2.peer.sockfd, r.2.peer.queue_count, r.2.peer.rb.data,
          issued (bound_world 16 (arrivals burst16)) r.2))
      = some (Error.FAILED, -1, 0, [],
          [Syscall.recvfrom 3 4 true 3 0, Syscall.recvfrom 3 0 true 0 0, Syscall.close 3]) := by
  decide

/-- C5 (amended). Overflow is not a silent drop: on a bound peer, leading
datagrams of known families whose frames fit are stored complete, unmodified and
in arrival order, and a non-blocking `_poll` over them alone returns `OK`.  When
they leave at most 12 bytes free and a further datagram is pending, the next
receive is issued with length 0 and returns 0 bytes, and `_poll` calls `close()`
and returns `FAILED`: the socket is closed, the queue depth is 0, the ring
buffer is emptied, and the rest of the burst is left unread. -/
theorem overflow_not_dropped (R : Nat) (pre : List Datagram) (src : SockAddr) (d : List Nat)
    (rest : List RecvEvent) (w : World)
    (hbound : w.peer.sockfd ≠ -1)
    (hpre : ∀ e ∈ pre, known_source e.1 ∧ e.2 ≠ [] ∧ e.2.length ≤ R)
    (hfit : w.peer.rb.data.length + (spec_frames pre).length ≤ w.peer.rb.capacity)
    (hfull : w.peer.rb.capacity ≤ w.peer.rb.data.length + (spec_frames pre).length + 12)
    (hin : w.net.incoming = arrivals pre ++ RecvEvent.datagram src d :: rest) :
    (∃ w0, _poll R false { w with net := { w.net with incoming := arrivals pre } }
          = some (Error.OK, w0)
        ∧ w0.peer.rb.data = w.peer.rb.data ++ spec_frames pre
        ∧ w0.peer.queue_count = w.peer.queue_count + pre.length
        ∧ w0.peer.sockfd = w.peer.sockfd)
    ∧ (∃ w1, _poll R false w = some (Error.FAILED, w1)
        ∧ (recv_results (issued w w1)).length = pre.length + 1
        ∧ (recv_results (issued w w1)).getLast? = some (0, 0)
        ∧ Syscall.recvfrom w.peer.sockfd 0 true 0 0 ∈ issued w w1
        ∧ (issued w w1).getLast? = some (Syscall.close w.peer.sockfd)
        ∧ w1.peer.sockfd = -1 ∧ w1.peer.queue_count = 0 ∧ w1.peer.rb.data = []
        ∧ w1.net.incoming = rest) := by
  constructor
  · obtain ⟨log1, hp⟩ := poll_burst R pre { w with net := { w.net with incoming := arrivals pre } }
      hbound rfl hpre hfit
    exact ⟨_, hp, rfl, rfl, rfl⟩
  · obtain ⟨calls, hc1, hc2, h1⟩ :=
      poll_loop_burst R false pre (RecvEvent.datagram src d :: rest) w.peer w.net.log hpre hfit
    obtain ⟨hlen, _, _, _⟩ := recv_results_received _ _ calls hc1
    have hzero : recv_len R { w.peer.rb with data := w.peer.rb.data ++ spec_frames pre } = 0 :=
      recv_len_full R _ (by simp only [List.length_append]; omega)
    have hpoll : _poll R false w = some (Error.FAILED,
        close { peer := { w.peer with
                    rb := { w.peer.rb with data := w.peer.rb.data ++ spec_frames pre }
                    queue_count := w.peer.queue_count + pre.length }
                net := { w.net with
                    incoming := rest
                    log := w.net.log ++ calls ++ [Syscall.recvfrom w.peer.sockfd 0 true 0 0] } }) := by
      simp only [_poll, recv_loop, if_neg hbound, hin]
      rw [h1]
      simp [poll_loop, hzero]
    refine ⟨_, hpoll, ?_, ?_, ?_, ?_, rfl, rfl, rfl, ?_⟩
    · rw [issued_append w _ (calls ++ [Syscall.recvfrom w.peer.sockfd 0 true 0 0] ++
        [Syscall.close w.peer.sockfd]) (by simp [close, hbound])]
      simp [recv_results_append, recv_results, hlen, hc2]
    · rw [issued_append w _ (calls ++ [Syscall.recvfrom w.peer.sockfd 0 true 0 0] ++
        [Syscall.close w.peer.sockfd]) (by simp [close, hbound])]
      simp [recv_results_append, recv_results]
    · rw [issued_append w _ (calls ++ [Syscall.recvfrom w.peer.sockfd 0 true 0 0] ++
        [Syscall.close w.peer.sockfd]) (by simp [close, hbound])]
      simp
    · rw [issued_append w _ (calls ++ [Syscall.recvfrom w.peer.sockfd 0 true 0 0] ++
        [Syscall.close w.peer.sockfd]) (by simp [close, hbound])]
      simp
    · simp [close]
      split <;> rfl

/-- C5 (amended), at a concrete input: the burst of `burst16` on a ring buffer of
16 bytes. -/
theorem overflow_not_dropped_witness :
    (∃ w0, _poll 65536 false
          { bound_world 16 (arrivals burst16) with
            net := { (bound_world 16 (arrivals burst16)).net with
                     incoming := arrivals [(ping.1, [1, 2, 3])] } }
          = some (Error.OK, w0)
        ∧ w0.peer.rb.data = [] ++ spec_frames [(ping.1, [1, 2, 3])]
        ∧ w0.peer.queue_count = 0 + 1
        ∧ w0.peer.sockfd = 3)
    ∧ (∃ w1, _poll 65536 false (bound_world 16 (arrivals burst16)) = some (Error.FAILED, w1)
        ∧ (recv_results (issued (bound_world 16 (arrivals burst16)) w1)).length = 1 + 1
        ∧ (recv_results (issued (bound_world 16 (arrivals burst16)) w1)).getLast? = some (0, 0)
        ∧ Syscall.recvfrom 3 0 true 0 0 ∈ issued (bound_world 16 (arrivals burst16)) w1
        ∧ (issued (bound_world 16 (arrivals burst16)) w1).getLast? = some (Syscall.close 3)
        ∧ w1.peer.sockfd = -1 ∧ w1.peer.queue_count = 0 ∧ w1.peer.rb.data = []
        ∧ w1.net.incoming = []) :=
  overflow_not_dropped 65536 [(ping.1, [1, 2, 3])] ping.1 [9] []
    (bound_world 16 (arrivals burst16)) (by decide) (by decide) (by decide) (by decide) rfl

/-- C6, counterexample: a zero-length datagram is received without any error
(the only receive returns 0 and sets no `errno`), yet `_poll` returns `FAILED`
and closes the socket. -/
theorem poll_fails_without_receive_error :
    (_poll 65536 false (bound_world 1024 [RecvEvent.datagram ping.1 []])).map
        (fun r => (r.1, recv_results (issued (bound_world 1024 [RecvEvent.datagram ping.1 []]) r.2),
          r.2.peer.sockfd, r.2.peer.queue_count))
      = some (Error.FAILED, [(0, 0)], -1, 0) := by
  decide

/-- Every run of the send loop that returns issued only `sendto` calls and
returns `OK` or `FAILED`. -/
theorem send_loop_log (sock : Int) (p_buffer : List Nat) (addr : IP_Address) (port : Int) :
    ∀ (results : List SendResult) (errno : Nat) (log : List Syscall) (r : Error)
      (rest : List SendResult) (log1 : List Syscall),
      send_loop sock p_buffer addr port results errno log = some (r, rest, log1) →
      ∃ calls, log1 = log ++ calls
        ∧ (∀ c ∈ calls, ∃ ret, c = Syscall.sendto sock p_buffer addr port ret)
        ∧ calls ≠ []
        ∧ (r = Error.OK ∨ r = Error.FAILED) := by
  intro results
  induction results with
  | nil => intro errno log r rest log1 h; simp [send_loop] at h
  | cons a as ih =>
    intro errno log r rest log1 h
    simp only [send_loop] at h
    split at h
    · split at h
      · simp only [Option.some.injEq, Prod.mk.injEq] at h
        obtain ⟨h1, _, h3⟩ := h
        exact ⟨[_], h3.symm, by simp, by simp, Or.inr h1.symm⟩
      · obtain ⟨calls, h1, h2, _, h4⟩ := ih _ _ r rest log1 h
        refine ⟨_ :: calls, by rw [h1, List.append_assoc]; rfl, ?_, by simp, h4⟩
        intro c hc
        rcases List.mem_cons.mp hc with hc | hc
        · exact ⟨_, hc⟩
        · exact h2 c hc
    · simp only [Option.some.injEq, Prod.mk.injEq] at h
      obtain ⟨h1, _, h3⟩ := h
      exact ⟨[_], h3.symm, by simp, by simp, Or.inl h1.symm⟩

theorem listen_not_failed (p_port : Int) (size : Nat) (w w1 : World) (r : Error)
    (h : listen p_port size w = some (r, w1)) : r ≠ Error.FAILED := by
  unfold listen at h
  simp only at h
  split at h
  · exact absurd h (by simp)
  · split at h
    · simp only [Option.some.injEq, Prod.mk.injEq] at h
      rw [← h.1]; decide
    · split at h
      · exact absurd h (by simp)
      · split at h
        · simp only [Option.some.injEq, Prod.mk.injEq] at h
          rw [← h.1]; decide
        · simp only [Option.some.injEq, Prod.mk.injEq] at h
          rw [← h.1]; decide

/-- When `_poll` returns `FAILED`, `close()` has run. -/
theorem poll_failed_closed (R : Nat) (p_wait : Bool) (w w1 : World)
    (h : _poll R p_wait w = some (Error.FAILED, w1)) :
    w1.peer.sockfd = -1 ∧ is_listening w1 = false ∧ w1.peer.queue_count = 0
      ∧ w1.peer.rb.data = []
      ∧ (w.peer.sockfd ≠ -1 → Syscall.close w.peer.sockfd ∈ issued w w1) := by
  obtain ⟨pre, len, ret, errno, _, _, hcase⟩ := poll_shape R p_wait w _ w1 h
  rcases hcase with ⟨hr, _⟩ | ⟨_, _, hlog, hfd, hq, hrb⟩
  · exact absurd hr (by decide)
  · refine ⟨hfd, by simp [is_listening, hfd], hq, by rw [hrb], ?_⟩
    intro hb
    rw [issued_append w w1 _ hlog]
    simp [hb]

/-- What a `put_packet` that returns `FAILED` leaves behind: no `close` call,
the queue as it was, and a valid handle still open. -/
theorem put_packet_failed (p_buffer : List Nat) (w w1 : World)
    (h : put_packet p_buffer w = some (Error.FAILED, w1)) :
    (∀ c ∈ issued w w1, ∀ fd, c ≠ Syscall.close fd)
      ∧ w1.peer.queue_count = w.peer.queue_count ∧ w1.peer.rb = w.peer.rb
      ∧ (w.peer.sockfd ≠ -1 → w1.peer.sockfd = w.peer.sockfd ∧ is_listening w1 = true)
      ∧ (w1.peer.sockfd = -1 → w.peer.sockfd = -1 ∧ w1.peer = w.peer) := by
  unfold put_packet at h
  split at h
  · exact absurd h (by simp)
  · unfold _get_socket at h
    by_cases hb : w.peer.sockfd = -1
    · simp only [hb, ne_eq, not_true_eq_false, if_false] at h
      cases hsr : w.net.socket_results with
      | nil => simp [hsr] at h
      | cons fd rest =>
        simp only [hsr] at h
        by_cases hfd : fd = -1
        · simp only [hfd, if_true, Option.some.injEq, Prod.mk.injEq, true_and] at h
          subst h
          refine ⟨?_, rfl, rfl, fun hne => absurd hb hne, fun _ => ⟨hb, ?_⟩⟩
          · intro c hc fd1
            rw [issued_append w _ [Syscall.socket_create w.peer.ip_type (-1)] rfl] at hc
            simp only [List.mem_singleton] at hc
            subst hc; simp
          · obtain ⟨peer, net⟩ := w
            simp only at hb
            cases peer
            simp only at hb
            subst hb
            rfl
        · simp only [hfd, if_false] at h
          split at h
          · exact absurd h (by simp)
          · rename_i err rest1 log1 hs
            simp only [Option.some.injEq, Prod.mk.injEq] at h
            obtain ⟨he, hw⟩ := h
            subst hw
            obtain ⟨calls, h1, h2, _, _⟩ := send_loop_log _ _ _ _ _ _ _ _ _ _ hs
            refine ⟨?_, rfl, rfl, fun hne => absurd hb hne, fun h1 => absurd h1 hfd⟩
            intro c hc fd1
            rw [issued_append w _ ([Syscall.socket_create w.peer.ip_type fd] ++ calls)
              (by simp [h1])] at hc
            rcases List.mem_append.mp hc with hc | hc
            · simp only [List.mem_singleton] at hc
              subst hc; simp
            · obtain ⟨ret, hret⟩ := h2 c hc
              subst hret; simp
    · simp only [hb, ne_eq, not_false_eq_true, if_true, if_false] at h
      split at h
      · exact absurd h (by simp)
      · rename_i err rest1 log1 hs
        simp only [Option.some.injEq, Prod.mk.injEq] at h
        obtain ⟨he, hw⟩ := h
        subst hw
        obtain ⟨calls, h1, h2, _, _⟩ := send_loop_log _ _ _ _ _ _ _ _ _ _ hs
        refine ⟨?_, rfl, rfl, fun _ => ⟨rfl, by simp [is_listening, hb]⟩, fun h1 => absurd h1 hb⟩
        intro c hc fd1
        rw [issued_append w _ calls (by simp [h1])] at hc
        obtain ⟨ret, hret⟩ := h2 c hc
        subst hret; simp

theorem decode_err (u : Uninit) (s : PacketPeerUDPPosix) : (decode u s).1.err = Error.OK := rfl

theorem decode_queue_count (u : Uninit) (s : PacketPeerUDPPosix) :
    (decode u s).2.queue_count = s.queue_count - 1 := rfl

/-- A `get_packet` that returns `FAILED` stems from its poll. -/
theorem get_packet_failed (R : Nat) (u : Uninit) (w w1 : World) (pkt : Packet)
    (h : get_packet R u w = some (pkt, w1)) (hf : pkt.err = Error.FAILED) :
    _poll R false w = some (Error.FAILED, w1) := by
  unfold get_packet at h
  split at h
  · exact absurd h (by simp)
  · rename_i err w2 hp
    split at h
    · simp only [Option.some.injEq, Prod.mk.injEq] at h
      obtain ⟨h1, h2⟩ := h
      subst h1 h2
      simp only at hf
      rw [hp, hf]
    · split at h
      · simp only [Option.some.injEq, Prod.mk.injEq] at h
        rw [← h.1] at hf
        exact absurd hf (by decide)
      · simp only [Option.some.injEq, Prod.mk.injEq] at h
        rw [← h.1, decode_err] at hf
        exact absurd hf (by decide)

/-- C7, counterexample: on a bound peer with one queued frame and a destination
set, a `sendto` that fails with `EMSGSIZE` (90) makes `put_packet` return
`FAILED` without any `close()`: the handle is still 3, `is_listening()` is true
and the queue depth is still 1. -/
theorem put_packet_failed_stays_open :
    (put_packet [1, 2, 3] (sending_world [SendResult.error 90])).map
        (fun r => (r.1, r.2.peer.sockfd, is_listening r.2, r.2.peer.queue_count,
          issued (sending_world [SendResult.error 90]) r.2))
      = some (Error.FAILED, 3, true, 1,
          [Syscall.sendto 3 [1, 2, 3] (IP_Address.ipv4 [10, 0, 0, 9]) 7000 (-1)]) := by
  decide

/-- C7 (amended). Failed implies closed for receiving only: whenever `wait` or
`get_packet` returns `FAILED`, the peer has performed `close()` before
returning (the handle is -1, `is_listening()` is false, the queue depth is 0,
the ring buffer is empty, and a handle that was valid has been closed).
Whenever `put_packet` returns `FAILED`, no `close` has been issued and the queue
and the ring buffer are as before: a handle that was valid stays open
(fatal send error), and the handle is -1 afterwards only when it was -1 before
and no socket could be created, the peer being unchanged. -/
theorem failed_closes_only_after_receive (R : Nat) (c : Call) (w w1 : World)
    (h : c.run R w = some (some Error.FAILED, w1)) :
    ((∀ p, c ≠ Call.put_packet p) →
        w1.peer.sockfd = -1 ∧ is_listening w1 = false ∧ w1.peer.queue_count = 0
        ∧ w1.peer.rb.data = []
        ∧ (w.peer.sockfd ≠ -1 → Syscall.close w.peer.sockfd ∈ issued w w1))
    ∧ (∀ p, c = Call.put_packet p →
        (∀ k ∈ issued w w1, ∀ fd, k ≠ Syscall.close fd)
        ∧ w1.peer.queue_count = w.peer.queue_count ∧ w1.peer.rb = w.peer.rb
        ∧ (w.peer.sockfd ≠ -1 → w1.peer.sockfd = w.peer.sockfd ∧ is_listening w1 = true)
        ∧ (w1.peer.sockfd = -1 → w.peer.sockfd = -1 ∧ w1.peer = w.peer)) := by
  cases c with
  | listen p_port size =>
    simp only [Call.run, Option.map_eq_some', Prod.mk.injEq, Option.some.injEq] at h
    obtain ⟨⟨r, w2⟩, h1, h2, _⟩ := h
    simp only at h2
    exact absurd h2 (listen_not_failed p_port size w w2 r h1)
  | close => simp [Call.run] at h
  | wait =>
    simp only [Call.run, Option.map_eq_some', Prod.mk.injEq, Option.some.injEq] at h
    obtain ⟨⟨r, w2⟩, h1, h2, h3⟩ := h
    simp only at h2 h3
    subst h2 h3
    exact ⟨fun _ => poll_failed_closed R true w w2 h1, fun p hp => absurd hp (by simp)⟩
  | get_available_packet_count => simp [Call.run] at h
  | get_packet u =>
    simp only [Call.run, Option.map_eq_some', Prod.mk.injEq, Option.some.injEq] at h
    obtain ⟨⟨pkt, w2⟩, h1, h2, h3⟩ := h
    simp only at h2 h3
    subst h3
    exact ⟨fun _ => poll_failed_closed R false w w2 (get_packet_failed R u w w2 pkt h1 h2),
      fun p hp => absurd hp (by simp)⟩
  | put_packet p_buffer =>
    simp only [Call.run, Option.map_eq_some', Prod.mk.injEq, Option.some.injEq] at h
    obtain ⟨⟨r, w2⟩, h1, h2, h3⟩ := h
    simp only at h2 h3
    subst h2 h3
    exact ⟨fun hne => absurd rfl (hne p_buffer), fun _ _ => put_packet_failed p_buffer w w2 h1⟩
  | set_send_address a p => simp [Call.run] at h

/-- C7 (amended), at concrete inputs: a `wait` ended by `ECONNRESET` (104)
leaves the peer closed; a `put_packet` ended by `EMSGSIZE` (90) leaves it bound
with its queue. -/
theorem failed_closes_only_after_receive_witness :
    (∃ w1, Call.wait.run 65536 (bound_world 1024 [RecvEvent.error 104])
          = some (some Error.FAILED, w1)
        ∧ w1.peer.sockfd = -1 ∧ is_listening w1 = false ∧ w1.peer.queue_count = 0)
    ∧ (∃ w1, (Call.put_packet [1, 2, 3]).run 65536 (sending_world [SendResult.error 90])
          = some (some Error.FAILED, w1)
        ∧ w1.peer.sockfd = 3 ∧ is_listening w1 = true ∧ w1.peer.queue_count = 1) := by
  constructor
  · have h : Call.wait.run 65536 (bound_world 1024 [RecvEvent.error 104])
        = some (some Error.FAILED, (close
            { bound_world 1024 [] with
              net := { (bound_world 1024 []).net with
                log := (bound_world 1024 []).net.log ++
                  [Syscall.recvfrom 3 1012 false (-1) 104] } })) := by decide
    obtain ⟨h1, h2, h3, _⟩ := (failed_closes_only_after_receive 65536 _ _ _ h).1 (by simp)
    exact ⟨_, h, h1, h2, h3⟩
  · have h : (Call.put_packet [1, 2, 3]).run 65536 (sending_world [SendResult.error 90])
        = some (some Error.FAILED,
            { sending_world [] with
              net := { (sending_world []).net with
                log := (sending_world []).net.log ++
                  [Syscall.sendto 3 [1, 2, 3] (IP_Address.ipv4 [10, 0, 0, 9]) 7000 (-1)] } }) := by
      decide
    obtain ⟨_, h2, _, h4, _⟩ := (failed_closes_only_after_receive 65536 _ _ _ h).2 _ rfl
    exact ⟨_, h, (h4 (by decide)).1, (h4 (by decide)).2, h2⟩

/-- On a bound peer with nothing pending `get_available_packet_count` returns the
queue depth. -/
theorem gapc_nothing (R : Nat) (w : World)
    (hbound : w.peer.sockfd ≠ -1) (hin : w.net.incoming = []) :
    get_available_packet_count R w = some (w.peer.queue_count,
      { w with net := { w.net with log := w.net.log ++
          [Syscall.recvfrom w.peer.sockfd (recv_len R w.peer.rb) true (-1) EAGAIN] } }) := by
  unfold get_available_packet_count
  rw [poll_nothing R w hbound hin]
  simp

/-- `listen(9000, 1024)` on the fresh peer succeeds and leaves a ring buffer of
1024 bytes. -/
theorem listen_fresh (inc : List RecvEvent) :
    listen 9000 1024 (fresh_world inc) = some (Error.OK, bound_world 1024 inc) := rfl

/-- The loop of a blocking poll ends with a receive of 0 bytes, or with the
`errno` of an error that was pending on the socket. -/
theorem poll_loop_wait_exit (R : Nat) :
    ∀ (inc : List RecvEvent) (s : PacketPeerUDPPosix) (log : List Syscall) (x : LoopExit),
      poll_loop R true inc s log = some x →
      x.ret = 0 ∨ (x.ret = -1 ∧ RecvEvent.error x.errno ∈ inc) := by
  intro inc
  induction inc with
  | nil => intro s log x h; simp [poll_loop] at h
  | cons ev rest ih =>
    intro s log x h
    cases ev with
    | idle =>
      simp only [poll_loop, if_true] at h
      rcases ih _ _ _ h with h1 | ⟨h1, h2⟩
      · exact Or.inl h1
      · exact Or.inr ⟨h1, List.mem_cons_of_mem _ h2⟩
    | error e =>
      simp only [poll_loop, Option.some.injEq] at h
      subst h
      exact Or.inr ⟨rfl, List.mem_cons_self _ _⟩
    | datagram src payload =>
      simp only [poll_loop] at h
      split at h
      · rcases ih _ _ _ h with h1 | ⟨h1, h2⟩
        · exact Or.inl h1
        · exact Or.inr ⟨h1, List.mem_cons_of_mem _ h2⟩
      · rename_i hret
        simp only [Option.some.injEq] at h
        subst h
        left
        simp only
        omega

/-- A call of `wait()` returns `OK` only when one of its receives, all issued
without `MSG_DONTWAIT`, reported `EAGAIN`. -/
theorem wait_ok_needs_eagain (R : Nat) (w w1 : World)
    (h : wait R w = some (Error.OK, w1)) : RecvEvent.error EAGAIN ∈ w.net.incoming := by
  unfold wait _poll at h
  split at h
  · exact absurd h (by simp)
  · rename_i x hx
    simp only at h
    split at h
    · simp at h
    · rename_i hc
      unfold recv_loop at hx
      split at hx
      · simp only [Option.some.injEq] at hx
        subst hx
        exact absurd (Or.inr ⟨rfl, by simp [EBADF, EAGAIN]⟩) hc
      · rcases poll_loop_wait_exit R _ _ _ _ hx with h1 | ⟨h1, h2⟩
        · exact absurd (Or.inl h1) hc
        · by_cases he : x.errno = EAGAIN
          · rw [he] at h2; exact h2
          · exact absurd (Or.inr ⟨h1, he⟩) hc

/-- C8. Blocking poll, evaluated on the code: after `listen(9000, 1024)`, with
"ping" from 10.0.0.5:5000 arrived and nothing else pending, the first receive of
`wait()` is issued without `MSG_DONTWAIT`, returns the 4 bytes and stores the
frame at queue depth 1; the loop then issues its next receive, again without
`MSG_DONTWAIT`, with nothing pending, and `wait()` does not return.  When an
`EAGAIN` ends that second receive, the log shows both receives issued without
`MSG_DONTWAIT`; and no call of `wait()`, in any state, returns `OK` unless one
of its receives reports `EAGAIN`. -/
theorem wait_blocks_after_first_datagram :
    listen 9000 1024 (fresh_world [RecvEvent.datagram ping.1 ping.2])
      = some (Error.OK, bound_world 1024 [RecvEvent.datagram ping.1 ping.2])
    ∧ poll_loop 65536 true [RecvEvent.datagram ping.1 ping.2]
        (bound_world 1024 []).peer (bound_world 1024 []).net.log
      = poll_loop 65536 true []
          (enqueue (bound_world 1024 []).peer ping.1 ping.2)
          ((bound_world 1024 []).net.log ++ [Syscall.recvfrom 3 1012 false 4 0])
    ∧ (enqueue (bound_world 1024 []).peer ping.1 ping.2).queue_count = 1
    ∧ (enqueue (bound_world 1024 []).peer ping.1 ping.2).rb.data = spec_frame ping.1 ping.2
    ∧ poll_loop 65536 true []
          (enqueue (bound_world 1024 []).peer ping.1 ping.2)
          ((bound_world 1024 []).net.log ++ [Syscall.recvfrom 3 1012 false 4 0]) = none
    ∧ wait 65536 (bound_world 1024 [RecvEvent.datagram ping.1 ping.2]) = none
    ∧ (wait 65536 (bound_world 1024 [RecvEvent.datagram ping.1 ping.2, RecvEvent.error EAGAIN])).map
        (fun r => (r.1, r.2.peer.queue_count,
          recv_flags (issued (bound_world 1024 []) r.2)))
      = some (Error.OK, 1, [false, false])
    ∧ (∀ (R : Nat) (w w1 : World), wait R w = some (Error.OK, w1) →
        RecvEvent.error EAGAIN ∈ w.net.incoming) :=
  ⟨by decide, by decide, by decide, by decide, by decide, by decide, by decide,
   wait_ok_needs_eagain⟩

/-- Every receive of `wait()` is blocking: in every call `wait() = _poll(true)`
that returns, each receive was issued without `MSG_DONTWAIT`.  Consequently, on a bound peer with an empty queue for which one
datagram of a known family arrives and nothing else is pending, `wait()` does
not return; when the wait is ended by a receive that reports `EAGAIN`, it
returns `OK` with queue depth 1, the following `get_packet` returns the payload,
address and port of the datagram, and `get_available_packet_count()` is 0
afterwards. -/
theorem wait_receives_blocking (R : Nat) (u : Uninit) (w : World) (src : SockAddr) (d : List Nat)
    (hR : R < 2147483648)
    (hbound : w.peer.sockfd ≠ -1)
    (hempty : w.peer.rb.data = []) (hq : w.peer.queue_count = 0)
    (hsrc : known_source src) (hne : d ≠ []) (hd : d.length ≤ R)
    (hfit : frame_size src d ≤ w.peer.rb.capacity) :
    (∀ (v v1 : World) (r : Error), wait R v = some (r, v1) →
        recv_flags (issued v v1) ≠ [] ∧ ∀ f ∈ recv_flags (issued v v1), f = false)
    ∧ wait R { w with net := { w.net with incoming := [RecvEvent.datagram src d] } } = none
    ∧ (∃ w1 w2 w3,
        wait R { w with net := { w.net with
                   incoming := [RecvEvent.datagram src d, RecvEvent.error EAGAIN] } }
          = some (Error.OK, w1)
        ∧ w1.peer.queue_count = 1
        ∧ get_packet R u w1 = some (⟨Error.OK, d, d.length⟩, w2)
        ∧ get_packet_address w2 = source_address src
        ∧ get_packet_port w2 = source_port src
        ∧ get_available_packet_count R w2 = some (0, w3)) := by
  have hds : ∀ e ∈ [((src, d) : Datagram)], known_source e.1 ∧ e.2 ≠ [] ∧ e.2.length ≤ R := by
    simpa using ⟨hsrc, hne, hd⟩
  have hfit1 : w.peer.rb.data.length + (spec_frames [((src, d) : Datagram)]).length
      ≤ w.peer.rb.capacity := by
    rw [hempty]; simpa [spec_frames, frame_size] using hfit
  refine ⟨?_, ?_, ?_⟩
  · intro v v1 r h
    obtain ⟨pre, len, ret, errno, hpre, _, hcase⟩ := poll_shape R true v r v1 h
    obtain ⟨_, _, hflags, _⟩ := recv_results_received _ _ pre hpre
    have key : ∀ tail : List Syscall, recv_flags tail = [] →
        v1.net.log = v.net.log ++ (pre ++ [Syscall.recvfrom v.peer.sockfd len (!true) ret errno] ++ tail) →
        recv_flags (issued v v1) ≠ [] ∧ ∀ f ∈ recv_flags (issued v v1), f = false := by
      intro tail ht hlog
      rw [issued_append v v1 _ hlog]
      simp only [recv_flags_append, recv_flags, ht, List.append_nil]
      refine ⟨by simp, ?_⟩
      intro f hf
      rcases List.mem_append.mp hf with hf | hf
      · simpa using hflags f hf
      · simpa using hf
    rcases hcase with ⟨_, _, _, hlog, _, _⟩ | ⟨_, _, hlog, _, _, _⟩
    · exact key [] rfl (by simpa using hlog)
    · by_cases hb : v.peer.sockfd = -1
      · exact key [] rfl (by simpa [hb] using hlog)
      · exact key [Syscall.close v.peer.sockfd] rfl (by simpa [hb] using hlog)
  · obtain ⟨calls, _, _, h1⟩ := poll_loop_burst R true [(src, d)] [] w.peer w.net.log hds hfit1
    simp only [wait, _poll, recv_loop, if_neg hbound]
    have : arrivals [((src, d) : Datagram)] ++ [] = [RecvEvent.datagram src d] := rfl
    rw [this] at h1
    rw [h1]
    simp [poll_loop]
  · obtain ⟨calls, _, _, h1⟩ := poll_loop_burst R true [(src, d)] [RecvEvent.error EAGAIN]
      w.peer w.net.log hds hfit1
    have harr : arrivals [((src, d) : Datagram)] ++ [RecvEvent.error EAGAIN]
        = [RecvEvent.datagram src d, RecvEvent.error EAGAIN] := rfl
    rw [harr] at h1
    have hw : wait R { w with net := { w.net with
          incoming := [RecvEvent.datagram src d, RecvEvent.error EAGAIN] } }
        = some (Error.OK,
            { peer := { w.peer with
                  rb := { w.peer.rb with data := w.peer.rb.data ++ spec_frames [(src, d)] }
                  queue_count := w.peer.queue_count + [((src, d) : Datagram)].length }
              net := { w.net with
                  incoming := []
                  log := w.net.log ++ calls ++
                    [Syscall.recvfrom w.peer.sockfd (recv_len R
                      { w.peer.rb with data := w.peer.rb.data ++ spec_frames [(src, d)] })
                      false (-1) EAGAIN] } }) := by
      simp only [wait, _poll, recv_loop, if_neg hbound]
      rw [h1]
      simp [poll_loop, EAGAIN]
    have hg := get_packet_frame R u
      { peer := { w.peer with
            rb := { w.peer.rb with data := w.peer.rb.data ++ spec_frames [(src, d)] }
            queue_count := w.peer.queue_count + [((src, d) : Datagram)].length }
        net := { w.net with
            incoming := []
            log := w.net.log ++ calls ++
              [Syscall.recvfrom w.peer.sockfd (recv_len R
                { w.peer.rb with data := w.peer.rb.data ++ spec_frames [(src, d)] })
                false (-1) EAGAIN] } } src d []
      hbound rfl (by simp) hsrc (by omega) (by simp [hempty, spec_frames])
    obtain ⟨w2, hg2, hb2, hin2, hq2, ha2, hp2⟩ : ∃ w2,
        get_packet R u
          { peer := { w.peer with
                rb := { w.peer.rb with data := w.peer.rb.data ++ spec_frames [(src, d)] }
                queue_count := w.peer.queue_count + [((src, d) : Datagram)].length }
            net := { w.net with
                incoming := []
                log := w.net.log ++ calls ++
                  [Syscall.recvfrom w.peer.sockfd (recv_len R
                    { w.peer.rb with data := w.peer.rb.data ++ spec_frames [(src, d)] })
                    false (-1) EAGAIN] } } = some (⟨Error.OK, d, d.length⟩, w2)
        ∧ w2.peer.sockfd ≠ -1 ∧ w2.net.incoming = [] ∧ w2.peer.queue_count = 0
        ∧ get_packet_address w2 = source_address src
        ∧ get_packet_port w2 = source_port src :=
      ⟨_, hg, hbound, rfl, by simp [hq], rfl, rfl⟩
    have h3 := gapc_nothing R w2 hb2 hin2
    rw [hq2] at h3
    exact ⟨_, w2, _, hw, by simp [hq], hg2, ha2, hp2, h3⟩

/-- The receives of `wait()` at the input of the scenario: "ping" from
10.0.0.5:5000 after `listen(9000, 1024)`. -/
theorem wait_receives_blocking_witness :
    wait 65536 (bound_world 1024 [RecvEvent.datagram ping.1 ping.2]) = none
    ∧ (∃ w1 w2 w3,
        wait 65536 (bound_world 1024 [RecvEvent.datagram ping.1 ping.2, RecvEvent.error EAGAIN])
          = some (Error.OK, w1)
        ∧ w1.peer.queue_count = 1
        ∧ get_packet 65536 u0 w1 = some (⟨Error.OK, [112, 105, 110, 103], 4⟩, w2)
        ∧ get_packet_address w2 = IP_Address.ipv4 [10, 0, 0, 5]
        ∧ get_packet_port w2 = 5000
        ∧ get_available_packet_count 65536 w2 = some (0, w3)) :=
  (wait_receives_blocking 65536 u0 (bound_world 1024 []) ping.1 ping.2
    (by decide) (by decide) rfl rfl (by decide) (by decide) (by decide) (by decide)).2

/-- C9. `get_packet` by queue depth, evaluated on the code: the state
`stray_queued` is what a poll leaves after a datagram of no known family; its
queue depth is 1 and nothing is pending.  `get_packet` returns `OK` and the
queue depth becomes 0, but the packet port (265) and the packet address are
not those of the dequeued frame, whose port field is 0 and which has no address
bytes: the decoder read sixteen bytes after the tag as an IPv6 address. -/
theorem get_packet_source_not_from_frame (u : Uninit) :
    _poll 65536 false (bound_world 1024 [RecvEvent.datagram stray.1 stray.2])
      = some (Error.OK, stray_queued)
    ∧ stray_queued.peer.rb.data = [TYPE_NONE] ++ u32_bytes 0 ++ u32_bytes 20 ++ stray.2
    ∧ (get_packet 65536 u stray_queued).map
        (fun r => (r.1.err, r.2.peer.queue_count, get_packet_port r.2, get_packet_address r.2))
      = some (Error.OK, 0, 265,
          IP_Address.ipv6 [0, 0, 0, 0, 20, 0, 0, 0, 1, 2, 3, 4, 5, 6, 7, 8]) := by
  refine ⟨by decide, by decide, rfl⟩

/-- The receive loop never touches the destination of `put_packet`, and leaves
the peer as it was when it enqueued nothing. -/
theorem poll_loop_keeps (R : Nat) (p_wait : Bool) :
    ∀ (inc : List RecvEvent) (s : PacketPeerUDPPosix) (log : List Syscall) (x : LoopExit),
      poll_loop R p_wait inc s log = some x →
      x.peer.peer_addr = s.peer_addr ∧ s.queue_count ≤ x.peer.queue_count
        ∧ (x.peer.queue_count = s.queue_count → x.peer = s) := by
  intro inc
  induction inc with
  | nil =>
    intro s log x h
    cases p_wait with
    | true => simp [poll_loop] at h
    | false =>
      simp only [poll_loop, Bool.false_eq_true, if_false, Option.some.injEq] at h
      subst h
      exact ⟨rfl, Nat.le_refl _, fun _ => rfl⟩
  | cons e rest ih =>
    intro s log x h
    cases e with
    | idle =>
      cases p_wait with
      | true =>
        simp only [poll_loop, if_true] at h
        exact ih s log x h
      | false =>
        simp only [poll_loop, Bool.false_eq_true, if_false, Option.some.injEq] at h
        subst h
        exact ⟨rfl, Nat.le_refl _, fun _ => rfl⟩
    | error e =>
      simp only [poll_loop, Option.some.injEq] at h
      subst h
      exact ⟨rfl, Nat.le_refl _, fun _ => rfl⟩
    | datagram src payload =>
      simp only [poll_loop] at h
      split at h
      · obtain ⟨h1, h2, _⟩ := ih _ _ x h
        rw [enqueue_queue_count] at h2
        refine ⟨h1, by omega, fun he => ?_⟩
        omega
      · simp only [Option.some.injEq] at h
        subst h
        exact ⟨rfl, Nat.le_refl _, fun _ => rfl⟩

theorem recv_loop_keeps (R : Nat) (p_wait : Bool) (w : World) (x : LoopExit)
    (h : recv_loop R p_wait w = some x) :
    x.peer.peer_addr = w.peer.peer_addr ∧ w.peer.queue_count ≤ x.peer.queue_count
      ∧ (x.peer.queue_count = w.peer.queue_count → x.peer = w.peer) := by
  unfold recv_loop at h
  split at h
  · simp only [Option.some.injEq] at h
    subst h
    exact ⟨rfl, Nat.le_refl _, fun _ => rfl⟩
  · exact poll_loop_keeps R p_wait _ _ _ x h

theorem poll_keeps_peer_addr (R : Nat) (p_wait : Bool) (w w1 : World) (r : Error)
    (h : _poll R p_wait w = some (r, w1)) : w1.peer.peer_addr = w.peer.peer_addr := by
  unfold _poll at h
  split at h
  · exact absurd h (by simp)
  · rename_i x hx
    obtain ⟨h1, _, _⟩ := recv_loop_keeps R p_wait w x hx
    simp only at h
    split at h
    · simp only [Option.some.injEq, Prod.mk.injEq] at h
      rw [← h.2]; exact h1
    · simp only [Option.some.injEq, Prod.mk.injEq] at h
      rw [← h.2]; exact h1

/-- A poll that returns `OK` and leaves queue depth 0 left the peer as it was. -/
theorem poll_ok_empty (R : Nat) (w w1 : World)
    (h : _poll R false w = some (Error.OK, w1)) (hq : w1.peer.queue_count = 0) :
    w1.peer = w.peer := by
  unfold _poll at h
  split at h
  · exact absurd h (by simp)
  · rename_i x hx
    obtain ⟨_, h2, h3⟩ := recv_loop_keeps R false w x hx
    simp only at h
    split at h
    · simp only [Option.some.injEq, Prod.mk.injEq] at h
      exact absurd h.1 (by decide)
    · simp only [Option.some.injEq, Prod.mk.injEq] at h
      obtain ⟨_, hw⟩ := h
      subst hw
      simp only at hq
      exact h3 (by omega)

/-- The part of the behaviour of `get_packet` by queue depth that holds in every
state: after a poll that returns `OK`, depth 0 gives `ERR_UNAVAILABLE` with the
peer unchanged; depth `n + 1` gives `OK` and depth `n`, and when the ring buffer
starts with the frame of a datagram of a known family, the payload, the address
and the port are those of that frame. -/
theorem get_packet_by_depth (R : Nat) (u : Uninit) (w w1 : World)
    (hp : _poll R false w = some (Error.OK, w1)) :
    (w1.peer.queue_count = 0 →
        get_packet R u w = some (⟨Error.ERR_UNAVAILABLE, [], 0⟩, w1) ∧ w1.peer = w.peer)
    ∧ (∀ n, w1.peer.queue_count = n + 1 →
        ∃ pkt w2, get_packet R u w = some (pkt, w2) ∧ pkt.err = Error.OK
          ∧ w2.peer.queue_count = n
          ∧ ∀ src payload rest, known_source src → payload.length < 4294967296 →
              w1.peer.rb.data = spec_frame src payload ++ rest →
              pkt = ⟨Error.OK, payload, payload.length⟩
              ∧ get_packet_address w2 = source_address src
              ∧ get_packet_port w2 = source_port src
              ∧ w2.peer.rb.data = rest) := by
  constructor
  · intro hq
    refine ⟨?_, poll_ok_empty R w w1 hp hq⟩
    simp [get_packet, hp, hq]
  · intro n hq
    refine ⟨(decode u w1.peer).1, { w1 with peer := (decode u w1.peer).2 }, ?_, rfl, ?_, ?_⟩
    · simp [get_packet, hp, hq]
    · simp [decode_queue_count, hq]
    · intro src payload rest hsrc hlen hdata
      have hdec := decode_frame u w1.peer src payload rest hsrc hlen hdata
      simp [hdec, get_packet_address, get_packet_port]

theorem call_keeps_peer_addr (R : Nat) (c : Call) (w w1 : World) (r : Option Error)
    (h : c.run R w = some (r, w1)) (hc : ∀ a p, c ≠ Call.set_send_address a p) :
    w1.peer.peer_addr = w.peer.peer_addr := by
  cases c with
  | listen p_port size =>
    simp only [Call.run, Option.map_eq_some', Prod.mk.injEq] at h
    obtain ⟨⟨e, w2⟩, h1, _, h3⟩ := h
    simp only at h3
    subst h3
    unfold listen _get_socket at h1
    simp only [close, ne_eq, not_true_eq_false, if_false] at h1
    split at h1
    · exact absurd h1 (by simp)
    · rename_i sock w3 hs
      split at hs
      · exact absurd hs (by simp)
      · simp only [Option.some.injEq, Prod.mk.injEq] at hs
        obtain ⟨_, hs2⟩ := hs
        subst hs2
        split at h1
        · simp only [Option.some.injEq, Prod.mk.injEq] at h1
          rw [← h1.2]
        · split at h1
          · exact absurd h1 (by simp)
          · split at h1
            · simp only [Option.some.injEq, Prod.mk.injEq] at h1
              rw [← h1.2]
            · simp only [Option.some.injEq, Prod.mk.injEq] at h1
              rw [← h1.2]
  | close =>
    simp only [Call.run, Option.some.injEq, Prod.mk.injEq] at h
    rw [← h.2]; rfl
  | wait =>
    simp only [Call.run, Option.map_eq_some', Prod.mk.injEq] at h
    obtain ⟨⟨e, w2⟩, h1, _, h3⟩ := h
    simp only at h3
    subst h3
    exact poll_keeps_peer_addr R true w w2 e h1
  | get_available_packet_count =>
    simp only [Call.run, Option.map_eq_some', Prod.mk.injEq] at h
    obtain ⟨⟨k, w2⟩, h1, _, h3⟩ := h
    simp only at h3
    subst h3
    unfold get_available_packet_count at h1
    split at h1
    · exact absurd h1 (by simp)
    · rename_i e w3 hp
      have := poll_keeps_peer_addr R false w w3 e hp
      split at h1 <;>
      · simp only [Option.some.injEq, Prod.mk.injEq] at h1
        rw [← h1.2]; exact this
  | get_packet u =>
    simp only [Call.run, Option.map_eq_some', Prod.mk.injEq] at h
    obtain ⟨⟨pkt, w2⟩, h1, _, h3⟩ := h
    simp only at h3
    subst h3
    unfold get_packet at h1
    split at h1
    · exact absurd h1 (by simp)
    · rename_i e w3 hp
      have := poll_keeps_peer_addr R false w w3 e hp
      split at h1
      · simp only [Option.some.injEq, Prod.mk.injEq] at h1
        rw [← h1.2]; exact this
      · split at h1
        · simp only [Option.some.injEq, Prod.mk.injEq] at h1
          rw [← h1.2]; exact this
        · simp only [Option.some.injEq, Prod.mk.injEq] at h1
          rw [← h1.2]; exact this
  | put_packet p_buffer =>
    simp only [Call.run, Option.map_eq_some', Prod.mk.injEq] at h
    obtain ⟨⟨e, w2⟩, h1, _, h3⟩ := h
    simp only at h3
    subst h3
    unfold put_packet _get_socket at h1
    split at h1
    · simp only [Option.some.injEq, Prod.mk.injEq] at h1
      rw [← h1.2]
    · split at h1
      · exact absurd h1 (by simp)
      · rename_i sock w3 hs
        have hw3 : w3.peer.peer_addr = w.peer.peer_addr := by
          split at hs
          · simp only [Option.some.injEq, Prod.mk.injEq] at hs
            rw [← hs.2]
          · split at hs
            · exact absurd hs (by simp)
            · simp only [Option.some.injEq, Prod.mk.injEq] at hs
              rw [← hs.2]
        split at h1
        · simp only [Option.some.injEq, Prod.mk.injEq] at h1
          rw [← h1.2]; exact hw3
        · split at h1
          · exact absurd h1 (by simp)
          · simp only [Option.some.injEq, Prod.mk.injEq] at h1
            rw [← h1.2]; exact hw3
  | set_send_address a p => exact absurd rfl (hc a p)

theorem run_calls_keeps_peer_addr (R : Nat) (cs : List Call) :
    ∀ (w w1 : World), run_calls R cs w = some w1 →
      (∀ c ∈ cs, ∀ a p, c ≠ Call.set_send_address a p) →
      w1.peer.peer_addr = w.peer.peer_addr := by
  induction cs with
  | nil =>
    intro w w1 h _
    simp only [run_calls, Option.some.injEq] at h
    rw [h]
  | cons c cs ih =>
    intro w w1 h hcs
    simp only [run_calls] at h
    split at h
    · exact absurd h (by simp)
    · rename_i r w2 hr
      rw [ih w2 w1 h (fun d hd => hcs d (List.mem_cons_of_mem _ hd))]
      exact call_keeps_peer_addr R c w w2 r hr (hcs c (List.mem_cons_self _ _))

/-- C10. Unconfigured send: on every peer reached from a freshly constructed
one by caller-facing operations none of which is `set_send_address`, `peer_addr`
is the default-constructed address, and `put_packet` returns `ERR_UNCONFIGURED`
for every payload and leaves the peer and the socket layer exactly as they were:
no call is issued (no socket is created, nothing is sent), and the socket
handle, the queue depth and the ring buffer are unchanged. -/
theorem put_packet_unconfigured (R : Nat) (rb_capacity : Nat) (net : Transport)
    (cs : List Call) (w : World) (p_buffer : List Nat)
    (hcs : ∀ c ∈ cs, ∀ a p, c ≠ Call.set_send_address a p)
    (hrun : run_calls R cs ⟨PacketPeerUDPPosix.construct rb_capacity, net⟩ = some w) :
    w.peer.peer_addr = IP_Address.empty
    ∧ put_packet p_buffer w = some (Error.ERR_UNCONFIGURED, w)
    ∧ ∀ w1, put_packet p_buffer w = some (Error.ERR_UNCONFIGURED, w1) →
        issued w w1 = [] ∧ w1.net = w.net ∧ w1.peer.sockfd = w.peer.sockfd
        ∧ w1.peer.queue_count = w.peer.queue_count ∧ w1.peer.rb = w.peer.rb := by
  have haddr : w.peer.peer_addr = IP_Address.empty :=
    run_calls_keeps_peer_addr R cs _ w hrun hcs
  have hput : put_packet p_buffer w = some (Error.ERR_UNCONFIGURED, w) := by
    simp [put_packet, haddr]
  refine ⟨haddr, hput, ?_⟩
  intro w1 h1
  rw [hput] at h1
  simp only [Option.some.injEq, Prod.mk.injEq, true_and] at h1
  subst h1
  exact ⟨by simp [issued], rfl, rfl, rfl, rfl⟩

/-- C10, at a concrete input: a fresh peer that has listened on port 9000 and
polled once, with no destination set. -/
theorem put_packet_unconfigured_witness :
    (bound_world 1024 []).peer.peer_addr = IP_Address.empty
    ∧ put_packet [1, 2, 3] (bound_world 1024 [])
        = some (Error.ERR_UNCONFIGURED, bound_world 1024 []) := by
  have h := put_packet_unconfigured 65536 1 (fresh_world []).net [Call.listen 9000 1024]
    (bound_world 1024 []) [1, 2, 3]
    (by intro c hc a p; simp only [List.mem_singleton] at hc; subst hc; simp) (by decide)
  exact ⟨h.1, h.2.1⟩

/-- C13. Idempotent close: for every state, `close()` leaves the socket handle
unbound, the queue depth 0 and an empty ring buffer of the capacity that
`rb.resize(8)` gives whatever the buffer was before; closing again changes
nothing and issues no further call; the last-packet source and the configured
send address are not changed by `close()`; the only call issued is the `close`
of a handle that was valid. -/
theorem close_idempotent (w : World) :
    (close w).peer.sockfd = -1 ∧ is_listening (close w) = false
    ∧ (close w).peer.queue_count = 0
    ∧ (close w).peer.rb.data = []
    ∧ (close w).peer.rb = RingBuffer.resize { capacity := 0, data := [] } 8
    ∧ close (close w) = close w
    ∧ (close w).peer.packet_ip = w.peer.packet_ip
    ∧ (close w).peer.packet_port = w.peer.packet_port
    ∧ (close w).peer.peer_addr = w.peer.peer_addr
    ∧ (close w).peer.peer_port = w.peer.peer_port
    ∧ issued w (close w)
        = (if w.peer.sockfd ≠ -1 then [Syscall.close w.peer.sockfd] else []) := by
  refine ⟨rfl, rfl, rfl, rfl, rfl, ?_, rfl, rfl, rfl, rfl, ?_⟩
  · simp [close, RingBuffer.resize]
  · by_cases hb : w.peer.sockfd = -1
    · simp [issued, close, hb]
    · simp [issued, close, hb]

theorem close_net (w : World) :
    (close w).net.socket_results = w.net.socket_results
    ∧ (close w).net.bind_results = w.net.bind_results
    ∧ (close w).net.send_results = w.net.send_results
    ∧ (close w).net.incoming = w.net.incoming := by
  by_cases hb : w.peer.sockfd = -1 <;> simp [close, hb]

/-- On an unbound peer `_get_socket` takes the next answer of `_socket_create`. -/
theorem get_socket_unbound (w : World) (fd : Int) (srest : List Int)
    (hu : w.peer.sockfd = -1) (hs : w.net.socket_results = fd :: srest) :
    _get_socket w = some (fd,
      { peer := { w.peer with sockfd := fd }
        net := { w.net with
                   socket_results := srest
                   log := w.net.log ++ [Syscall.socket_create w.peer.ip_type fd] } }) := by
  unfold _get_socket
  rw [if_neg (by simp [hu]), hs]

/-- C14. Outcomes of `listen`: for every state, port and buffer size, with `fd`
the answer of `_socket_create` and `r` the answer of `bind`, `listen` returns;
it returns `ERR_CANT_CREATE` exactly when `fd` is -1, `ERR_UNAVAILABLE` exactly
when a socket was created and `bind` answered -1, and `OK` exactly when both
succeeded.  A handle that was valid before is closed first, and the frames
queued before are gone in every case.  After a failure the peer is unbound
(`is_listening()` false, queue depth 0), and a socket that was created and could
not be bound has been closed; after `OK` the peer is bound to the new socket
with queue depth 0 and an empty ring buffer of `2 ^ nearest_shift` bytes. -/
theorem listen_outcomes (p_port : Int) (size : Nat) (w : World) (fd r : Int)
    (srest brest : List Int)
    (hs : w.net.socket_results = fd :: srest)
    (hb : fd ≠ -1 → w.net.bind_results = r :: brest) :
    ∃ e w1, listen p_port size w = some (e, w1)
      ∧ (e = Error.ERR_CANT_CREATE ↔ fd = -1)
      ∧ (e = Error.ERR_UNAVAILABLE ↔ (fd ≠ -1 ∧ r = -1))
      ∧ (e = Error.OK ↔ (fd ≠ -1 ∧ r ≠ -1))
      ∧ (w.peer.sockfd ≠ -1 → (issued w w1).head? = some (Syscall.close w.peer.sockfd))
      ∧ w1.peer.queue_count = 0 ∧ w1.peer.rb.data = []
      ∧ (e ≠ Error.OK → w1.peer.sockfd = -1 ∧ is_listening w1 = false)
      ∧ (e = Error.ERR_UNAVAILABLE → (issued w w1).getLast? = some (Syscall.close fd))
      ∧ (e = Error.OK → w1.peer.sockfd = fd ∧ is_listening w1 = true
          ∧ w1.peer.rb.capacity = 2 ^ nearest_shift size) := by
  have hlog : ∀ (extra : List Syscall) (w1 : World),
      w1.net.log = (close w).net.log ++ extra →
      (w.peer.sockfd ≠ -1 → (issued w w1).head? = some (Syscall.close w.peer.sockfd)) := by
    intro extra w1 h1 hbound
    rw [issued_append w w1 ([Syscall.close w.peer.sockfd] ++ extra)
      (by rw [h1]; simp [close, hbound])]
    rfl
  by_cases hfd : fd = -1
  · subst hfd
    have h : listen p_port size w = some (Error.ERR_CANT_CREATE,
        { peer := { (close w).peer with sockfd := -1 }
          net := { (close w).net with
                     socket_results := srest
                     log := (close w).net.log ++
                       [Syscall.socket_create w.peer.ip_type (-1)] } }) := by
      unfold listen
      simp only
      rw [get_socket_unbound (close w) (-1) srest rfl (by rw [(close_net w).1]; exact hs)]
      simp
      rfl
    refine ⟨_, _, h, by simp, by simp, by simp, ?_, rfl, rfl, ?_, by simp, by simp⟩
    · exact hlog [Syscall.socket_create w.peer.ip_type (-1)] _ rfl
    · intro _
      exact ⟨rfl, rfl⟩
  · have hbr := hb hfd
    by_cases hr : r = -1
    · subst hr
      have h : listen p_port size w = some (Error.ERR_UNAVAILABLE,
          close { peer := { (close w).peer with sockfd := fd }
                  net := { (close w).net with
                             socket_results := srest
                             bind_results := brest
                             log := (close w).net.log ++
                               [Syscall.socket_create w.peer.ip_type fd] ++
                               [Syscall.bind fd p_port (-1)] } }) := by
        unfold listen
        simp only
        rw [get_socket_unbound (close w) fd srest rfl (by rw [(close_net w).1]; exact hs)]
        simp only [if_neg hfd, (close_net w).2.1, hbr, if_true]
        rfl
      refine ⟨_, _, h, by simp [hfd], by simp [hfd], by simp, ?_, rfl, rfl, ?_, ?_, by simp⟩
      · exact hlog [Syscall.socket_create w.peer.ip_type fd, Syscall.bind fd p_port (-1),
          Syscall.close fd] _ (by simp [close, hfd])
      · intro _
        exact ⟨rfl, rfl⟩
      · intro _
        by_cases hbound : w.peer.sockfd = -1
        · simp [issued, close, hbound, hfd]
        · simp [issued, close, hbound, hfd]
    · have h : listen p_port size w = some (Error.OK,
          { peer := { (close w).peer with
                        sockfd := fd
                        rb := RingBuffer.resize (close w).peer.rb (nearest_shift size) }
            net := { (close w).net with
                       socket_results := srest
                       bind_results := brest
                       log := (close w).net.log ++
                         [Syscall.socket_create w.peer.ip_type fd] ++
                         [Syscall.bind fd p_port r] } }) := by
        unfold listen
        simp only
        rw [get_socket_unbound (close w) fd srest rfl (by rw [(close_net w).1]; exact hs)]
        simp only [if_neg hfd, (close_net w).2.1, hbr, if_neg hr]
        rfl
      refine ⟨_, _, h, by simp [hfd], by simp [hr], by simp [hfd, hr], ?_, rfl, rfl, ?_,
        by simp, ?_⟩
      · exact hlog [Syscall.socket_create w.peer.ip_type fd, Syscall.bind fd p_port r] _
          (by simp)
      · intro h
        exact absurd rfl h
      · intro _
        exact ⟨rfl, by simp [is_listening, hfd], rfl⟩

/-- C14, at a concrete input: `listen(9000, 1024)` on the fresh peer, where
`_socket_create` answers 3 and `bind` answers 0. -/
theorem listen_outcomes_witness :
    ∃ w1, listen 9000 1024 (fresh_world []) = some (Error.OK, w1)
      ∧ w1.peer.sockfd = 3 ∧ is_listening w1 = true ∧ w1.peer.queue_count = 0
      ∧ w1.peer.rb.data = [] ∧ w1.peer.rb.capacity = 2 ^ nearest_shift 1024 := by
  obtain ⟨e, w1, h, _, _, hok, _, hq, hd, _, _, hbound⟩ :=
    listen_outcomes 9000 1024 (fresh_world []) 3 0 [] [] rfl (fun _ => rfl)
  have he : e = Error.OK := hok.mpr ⟨by decide, by decide⟩
  subst he
  exact ⟨w1, h, (hbound rfl).1, (hbound rfl).2.1, hq, hd, (hbound rfl).2.2⟩

/-- C11, counterexample: a closed peer with a destination set, on which
`_socket_create` answers handle 4 and `sendto` accepts the three bytes:
`put_packet` creates the socket, sends, returns `OK`, and the peer is bound to
handle 4 afterwards (`is_listening()` is true). -/
theorem put_packet_unbound_sends :
    (unbound_sender [4] [SendResult.sent 3]).peer.sockfd = -1
    ∧ (put_packet [1, 2, 3] (unbound_sender [4] [SendResult.sent 3])).map
        (fun r => (r.1, r.2.peer.sockfd, is_listening r.2,
          issued (unbound_sender [4] [SendResult.sent 3]) r.2))
      = some (Error.OK, 4, true,
          [Syscall.socket_create TYPE_ANY 4,
           Syscall.sendto 4 [1, 2, 3] (IP_Address.ipv4 [10, 0, 0, 9]) 7000 3]) := by
  decide

/-- C11 (amended). Sends while unbound create a socket: on every peer whose
socket handle is -1 and whose destination is set, `put_packet` first asks
`_socket_create` for a socket.  When that fails, `put_packet` returns `FAILED`,
issues no `sendto`, and the handle stays -1 (`is_listening()` stays false).
When it answers a handle `fd`, every `put_packet` that returns leaves the peer
on that handle (`is_listening()` becomes true), has issued a `sendto` on it and
returns `OK` or `FAILED`; it returns `OK` when the first `sendto` accepts the
whole payload. -/
theorem put_packet_unbound (p_buffer : List Nat) (w : World) (fd : Int) (srest : List Int)
    (hu : w.peer.sockfd = -1) (ha : w.peer.peer_addr ≠ IP_Address.empty)
    (hs : w.net.socket_results = fd :: srest) :
    (fd = -1 → ∃ w1, put_packet p_buffer w = some (Error.FAILED, w1)
        ∧ issued w w1 = [Syscall.socket_create w.peer.ip_type (-1)]
        ∧ w1.peer.sockfd = -1 ∧ is_listening w1 = false)
    ∧ (fd ≠ -1 → ∀ r w1, put_packet p_buffer w = some (r, w1) →
        w1.peer.sockfd = fd ∧ is_listening w1 = true
        ∧ (∃ ret, Syscall.sendto fd p_buffer w.peer.peer_addr w.peer.peer_port ret
            ∈ issued w w1)
        ∧ (r = Error.OK ∨ r = Error.FAILED))
    ∧ (fd ≠ -1 → ∀ rest, w.net.send_results = SendResult.sent p_buffer.length :: rest →
        ∃ w1, put_packet p_buffer w = some (Error.OK, w1) ∧ w1.peer.sockfd = fd) := by
  have hg := get_socket_unbound w fd srest hu hs
  refine ⟨?_, ?_, ?_⟩
  · intro hfd
    subst hfd
    have h : put_packet p_buffer w = some (Error.FAILED,
        { peer := { w.peer with sockfd := -1 }
          net := { w.net with
                     socket_results := srest
                     log := w.net.log ++ [Syscall.socket_create w.peer.ip_type (-1)] } }) := by
      simp only [put_packet, if_neg ha, hg, if_true]
    exact ⟨_, h, by simp [issued], rfl, rfl⟩
  · intro hfd r w1 h
    simp only [put_packet, if_neg ha, hg, if_neg hfd] at h
    split at h
    · exact absurd h (by simp)
    · rename_i err rest1 log1 hsl
      simp only [Option.some.injEq, Prod.mk.injEq] at h
      obtain ⟨he, hw⟩ := h
      subst he hw
      obtain ⟨calls, h1, h2, h3, h4⟩ := send_loop_log _ _ _ _ _ _ _ _ _ _ hsl
      refine ⟨rfl, by simp [is_listening, hfd], ?_, h4⟩
      obtain ⟨c, cs, hc⟩ := List.exists_cons_of_ne_nil h3
      obtain ⟨ret, hret⟩ := h2 c (by rw [hc]; exact List.mem_cons_self _ _)
      refine ⟨ret, ?_⟩
      rw [issued_append w _ ([Syscall.socket_create w.peer.ip_type fd] ++ calls)
        (by simp [h1])]
      rw [hc, hret]
      simp
  · intro hfd rest hsend
    have h : put_packet p_buffer w = some (Error.OK,
        { peer := { w.peer with sockfd := fd }
          net := { w.net with
                     socket_results := srest
                     send_results := rest
                     log := w.net.log ++ [Syscall.socket_create w.peer.ip_type fd] ++
                       [Syscall.sendto fd p_buffer w.peer.peer_addr w.peer.peer_port
                         (p_buffer.length : Int)] } }) := by
      simp only [put_packet, if_neg ha, hg, if_neg hfd, hsend, send_loop]
      simp
    exact ⟨_, h, rfl⟩

/-- C11 (amended), at concrete inputs: on the closed peer with a destination
set, a failing `_socket_create` gives `FAILED` without any send, and one that
answers handle 4 gives `OK` on the new socket. -/
theorem put_packet_unbound_witness :
    (∃ w1, put_packet [1, 2, 3] (unbound_sender [-1] []) = some (Error.FAILED, w1)
        ∧ issued (unbound_sender [-1] []) w1 = [Syscall.socket_create TYPE_ANY (-1)]
        ∧ w1.peer.sockfd = -1 ∧ is_listening w1 = false)
    ∧ (∃ w1, put_packet [1, 2, 3] (unbound_sender [4] [SendResult.sent 3])
          = some (Error.OK, w1) ∧ w1.peer.sockfd = 4) :=
  ⟨(put_packet_unbound [1, 2, 3] (unbound_sender [-1] []) (-1) [] rfl (by decide) rfl).1 rfl,
   (put_packet_unbound [1, 2, 3] (unbound_sender [4] [SendResult.sent 3]) 4 [] rfl
      (by decide) rfl).2.2 (by decide) [] rfl⟩

/-- Answers that accept a part of the payload, which a datagram socket does not
give: with the `sendto` answers "EAGAIN, 1 byte accepted, 3 bytes accepted" for
a payload of 3 bytes the specification gives `FAILED` at the second call, while
the send loop tests the `errno` left by the first call, retries, and returns
`OK` after three calls.  A short send as first answer gives `FAILED`. -/
theorem put_packet_retries_short_send :
    spec_send_outcome 3 [SendResult.error EAGAIN, SendResult.sent 1, SendResult.sent 3]
      = some Error.FAILED
    ∧ (put_packet [1, 2, 3]
          (sending_world [SendResult.error EAGAIN, SendResult.sent 1, SendResult.sent 3])).map
        (fun r => (r.1, issued (sending_world []) r.2))
      = some (Error.OK,
          [Syscall.sendto 3 [1, 2, 3] (IP_Address.ipv4 [10, 0, 0, 9]) 7000 (-1),
           Syscall.sendto 3 [1, 2, 3] (IP_Address.ipv4 [10, 0, 0, 9]) 7000 1,
           Syscall.sendto 3 [1, 2, 3] (IP_Address.ipv4 [10, 0, 0, 9]) 7000 3])
    ∧ (put_packet [1, 2, 3] (sending_world [SendResult.sent 1, SendResult.sent 3])).map
        (fun r => r.1) = some Error.FAILED := by
  decide

/-- On the handle -1 the poll fails at once with `EBADF` and closes. -/
theorem poll_unbound (R : Nat) (p_wait : Bool) (w : World) (hu : w.peer.sockfd = -1) :
    _poll R p_wait w = some (Error.FAILED,
      close { peer := w.peer
              net := { w.net with log := w.net.log ++
                [Syscall.recvfrom w.peer.sockfd (recv_len R w.peer.rb) (!p_wait) (-1) EBADF] } }) := by
  simp [_poll, recv_loop, hu, EBADF, EAGAIN]

/-- After a poll that returns, an unbound peer has an empty queue, and a poll
that returns `OK` leaves the peer bound. -/
theorem poll_unbound_empty (R : Nat) (p_wait : Bool) (w w1 : World) (r : Error)
    (h : _poll R p_wait w = some (r, w1)) :
    (w1.peer.sockfd = -1 → w1.peer.queue_count = 0)
    ∧ (r = Error.OK → w1.peer.sockfd ≠ -1) := by
  by_cases hu : w.peer.sockfd = -1
  · rw [poll_unbound R p_wait w hu] at h
    simp only [Option.some.injEq, Prod.mk.injEq] at h
    obtain ⟨hr, hw⟩ := h
    subst hr hw
    exact ⟨fun _ => rfl, fun hne => absurd hne (by decide)⟩
  · obtain ⟨pre, len, ret, errno, _, _, hcase⟩ := poll_shape R p_wait w r w1 h
    rcases hcase with ⟨_, _, _, _, hfd, _⟩ | ⟨hr, _, _, _, hq, _⟩
    · exact ⟨fun h1 => absurd (hfd ▸ h1) hu, fun _ => by rw [hfd]; exact hu⟩
    · exact ⟨fun _ => hq, fun hne => absurd (hr ▸ hne) (by decide)⟩

theorem decode_sockfd (u : Uninit) (s : PacketPeerUDPPosix) :
    (decode u s).2.sockfd = s.sockfd := rfl

/-- Every `put_packet` that returns keeps the queue, and keeps a valid handle. -/
theorem put_packet_keeps (p_buffer : List Nat) (w w1 : World) (r : Error)
    (h : put_packet p_buffer w = some (r, w1)) :
    w1.peer.queue_count = w.peer.queue_count
    ∧ (w.peer.sockfd ≠ -1 → w1.peer.sockfd = w.peer.sockfd) := by
  unfold put_packet _get_socket at h
  split at h
  · simp only [Option.some.injEq, Prod.mk.injEq] at h
    rw [← h.2]
    exact ⟨rfl, fun _ => rfl⟩
  · split at h
    · exact absurd h (by simp)
    · rename_i sock w3 hs
      have hw3 : w3.peer.queue_count = w.peer.queue_count
          ∧ (w.peer.sockfd ≠ -1 → w3.peer.sockfd = w.peer.sockfd) := by
        split at hs
        · simp only [Option.some.injEq, Prod.mk.injEq] at hs
          rw [← hs.2]
          exact ⟨rfl, fun _ => rfl⟩
        · rename_i hu
          split at hs
          · exact absurd hs (by simp)
          · simp only [Option.some.injEq, Prod.mk.injEq] at hs
            rw [← hs.2]
            exact ⟨rfl, fun hne => absurd hne hu⟩
      split at h
      · simp only [Option.some.injEq, Prod.mk.injEq] at h
        rw [← h.2]; exact hw3
      · split at h
        · exact absurd h (by simp)
        · simp only [Option.some.injEq, Prod.mk.injEq] at h
          rw [← h.2]; exact hw3

/-- The unbound peer has an empty queue after every caller-facing operation
that starts from such a state. -/
theorem call_keeps_unbound_empty (R : Nat) (c : Call) (w w1 : World) (r : Option Error)
    (h : c.run R w = some (r, w1))
    (hw : w.peer.sockfd = -1 → w.peer.queue_count = 0) :
    w1.peer.sockfd = -1 → w1.peer.queue_count = 0 := by
  cases c with
  | listen p_port size =>
    simp only [Call.run, Option.map_eq_some', Prod.mk.injEq] at h
    obtain ⟨⟨e, w2⟩, h1, _, h3⟩ := h
    simp only at h3
    subst h3
    intro _
    unfold listen at h1
    simp only at h1
    split at h1
    · exact absurd h1 (by simp)
    · rename_i sock w3 hs
      have hq3 : w3.peer.queue_count = 0 := by
        unfold _get_socket at hs
        split at hs
        · simp only [Option.some.injEq, Prod.mk.injEq] at hs
          rw [← hs.2]; rfl
        · split at hs
          · exact absurd hs (by simp)
          · simp only [Option.some.injEq, Prod.mk.injEq] at hs
            rw [← hs.2]; rfl
      split at h1
      · simp only [Option.some.injEq, Prod.mk.injEq] at h1
        rw [← h1.2]; exact hq3
      · split at h1
        · exact absurd h1 (by simp)
        · split at h1
          · simp only [Option.some.injEq, Prod.mk.injEq] at h1
            rw [← h1.2]; rfl
          · simp only [Option.some.injEq, Prod.mk.injEq] at h1
            rw [← h1.2]; exact hq3
  | close =>
    simp only [Call.run, Option.some.injEq, Prod.mk.injEq] at h
    rw [← h.2]
    intro _; rfl
  | wait =>
    simp only [Call.run, Option.map_eq_some', Prod.mk.injEq] at h
    obtain ⟨⟨e, w2⟩, h1, _, h3⟩ := h
    simp only at h3
    subst h3
    exact (poll_unbound_empty R true w w2 e h1).1
  | get_available_packet_count =>
    simp only [Call.run, Option.map_eq_some', Prod.mk.injEq] at h
    obtain ⟨⟨k, w2⟩, h1, _, h3⟩ := h
    simp only at h3
    subst h3
    unfold get_available_packet_count at h1
    split at h1
    · exact absurd h1 (by simp)
    · rename_i e w3 hp
      have := (poll_unbound_empty R false w w3 e hp).1
      split at h1 <;>
      · simp only [Option.some.injEq, Prod.mk.injEq] at h1
        rw [← h1.2]; exact this
  | get_packet u =>
    simp only [Call.run, Option.map_eq_some', Prod.mk.injEq] at h
    obtain ⟨⟨pkt, w2⟩, h1, _, h3⟩ := h
    simp only at h3
    subst h3
    unfold get_packet at h1
    split at h1
    · exact absurd h1 (by simp)
    · rename_i e w3 hp
      have hpe := poll_unbound_empty R false w w3 e hp
      split at h1
      · simp only [Option.some.injEq, Prod.mk.injEq] at h1
        rw [← h1.2]; exact hpe.1
      · rename_i hok
        split at h1
        · simp only [Option.some.injEq, Prod.mk.injEq] at h1
          rw [← h1.2]; exact hpe.1
        · simp only [Option.some.injEq, Prod.mk.injEq] at h1
          rw [← h1.2]
          intro hu
          simp only [decode_sockfd] at hu
          exact absurd hu (hpe.2 (by simpa using hok))
  | put_packet p_buffer =>
    simp only [Call.run, Option.map_eq_some', Prod.mk.injEq] at h
    obtain ⟨⟨e, w2⟩, h1, _, h3⟩ := h
    simp only at h3
    subst h3
    obtain ⟨hq, hfd⟩ := put_packet_keeps p_buffer w w2 e h1
    intro hu
    rw [hq]
    apply hw
    by_contra hb
    exact hb (hfd hb ▸ hu)
  | set_send_address a p =>
    simp only [Call.run, Option.some.injEq, Prod.mk.injEq] at h
    rw [← h.2]
    exact hw

theorem run_calls_unbound_empty (R : Nat) (cs : List Call) :
    ∀ (w w1 : World), run_calls R cs w = some w1 →
      (w.peer.sockfd = -1 → w.peer.queue_count = 0) →
      (w1.peer.sockfd = -1 → w1.peer.queue_count = 0) := by
  induction cs with
  | nil =>
    intro w w1 h hw
    simp only [run_calls, Option.some.injEq] at h
    rw [← h]; exact hw
  | cons c cs ih =>
    intro w w1 h hw
    simp only [run_calls] at h
    split at h
    · exact absurd h (by simp)
    · rename_i r w2 hr
      exact ih w2 w1 h (call_keeps_unbound_empty R c w w2 r hr hw)

/-- C15. Unbound implies empty queue: in every state reached from a freshly
constructed peer by any sequence of `listen`, `close`, `wait`,
`get_available_packet_count`, `get_packet`, `put_packet` and `set_send_address`
calls, a socket handle of -1 implies a queue depth of 0; and on every such
unbound peer `get_available_packet_count()` returns 0.  A receive on the handle
-1 reports the error `EBADF`. -/
theorem unbound_implies_empty (R : Nat) (rb_capacity : Nat) (net : Transport)
    (cs : List Call) (w : World)
    (hrun : run_calls R cs ⟨PacketPeerUDPPosix.construct rb_capacity, net⟩ = some w)
    (hu : w.peer.sockfd = -1) :
    w.peer.queue_count = 0
    ∧ ∃ w1, get_available_packet_count R w = some (0, w1)
        ∧ w1.peer.sockfd = -1 ∧ w1.peer.queue_count = 0 := by
  refine ⟨run_calls_unbound_empty R cs _ w hrun (fun _ => rfl) hu, ?_⟩
  refine ⟨close { peer := w.peer
                  net := { w.net with log := w.net.log ++
                    [Syscall.recvfrom w.peer.sockfd (recv_len R w.peer.rb) (!false) (-1) EBADF] } },
    ?_, rfl, rfl⟩
  unfold get_available_packet_count
  rw [poll_unbound R false w hu]
  simp

/-- C15, at a concrete input: a fresh peer listens, polls in "ping" and is
closed; it is unbound with an empty queue and reports 0 packets. -/
theorem unbound_implies_empty_witness :
    ∃ w, run_calls 65536 [Call.listen 9000 1024, Call.get_available_packet_count, Call.close]
          (fresh_world [RecvEvent.datagram ping.1 ping.2]) = some w
      ∧ w.peer.sockfd = -1 ∧ w.peer.queue_count = 0
      ∧ ∃ w1, get_available_packet_count 65536 w = some (0, w1) := by
  cases hrun : run_calls 65536 [Call.listen 9000 1024, Call.get_available_packet_count, Call.close]
      (fresh_world [RecvEvent.datagram ping.1 ping.2]) with
  | none => exact absurd hrun (by decide)
  | some w =>
    have hfd : (run_calls 65536
        [Call.listen 9000 1024, Call.get_available_packet_count, Call.close]
        (fresh_world [RecvEvent.datagram ping.1 ping.2])).map (fun v => v.peer.sockfd)
        = some (-1) := by decide
    rw [hrun] at hfd
    have hu : w.peer.sockfd = -1 := by simpa using hfd
    obtain ⟨hq, w1, h1, _, _⟩ := unbound_implies_empty 65536 1
      (fresh_world [RecvEvent.datagram ping.1 ping.2]).net _ w hrun hu
    exact ⟨w, rfl, hu, hq, w1, h1⟩

/-- On an unbound peer `get_packet` returns `FAILED`. -/
theorem get_packet_unbound (R : Nat) (u : Uninit) (w : World) (hu : w.peer.sockfd = -1) :
    ∃ w2, get_packet R u w = some (⟨Error.FAILED, [], 0⟩, w2) := by
  unfold get_packet
  rw [poll_unbound R false w hu]
  simp

/-- On an unbound peer `get_available_packet_count` returns 0. -/
theorem gapc_unbound (R : Nat) (w : World) (hu : w.peer.sockfd = -1) :
    ∃ w2, get_available_packet_count R w = some (0, w2) := by
  unfold get_available_packet_count
  rw [poll_unbound R false w hu]
  simp

/-- C16. A zero-byte receive is fatal.  In every `_poll` that returns, a receive
that returned 0 bytes makes the result `FAILED` after `close()`: the handle is
-1, the queue depth 0 and the ring buffer empty.  On a bound peer, whatever is
queued, the next pending datagram is received as 0 bytes when it is empty or
when at most 12 bytes are free in the ring buffer (the length passed is then
0): `_poll`, issuing that one receive and the `close`, returns `FAILED`, all
queued frames are lost, `get_packet` returns `FAILED` and
`get_available_packet_count` returns 0, in that call and in the calls after
it. -/
theorem zero_byte_receive_fatal (R : Nat) (u : Uninit) (w : World) (src : SockAddr)
    (payload : List Nat) (rest : List RecvEvent)
    (hbound : w.peer.sockfd ≠ -1)
    (hin : w.net.incoming = RecvEvent.datagram src payload :: rest)
    (hz : payload = [] ∨ w.peer.rb.capacity ≤ w.peer.rb.data.length + 12) :
    (∀ (p_wait : Bool) (v v1 : World) (r : Error), _poll R p_wait v = some (r, v1) →
        (∃ e, ((0 : Int), e) ∈ recv_results (issued v v1)) →
        r = Error.FAILED ∧ v1.peer.sockfd = -1 ∧ v1.peer.queue_count = 0
        ∧ v1.peer.rb.data = [])
    ∧ (w.peer.rb.capacity ≤ w.peer.rb.data.length + 12 → recv_len R w.peer.rb = 0)
    ∧ ∃ w1, _poll R false w = some (Error.FAILED, w1)
        ∧ issued w w1 = [Syscall.recvfrom w.peer.sockfd (recv_len R w.peer.rb) true 0 0,
                         Syscall.close w.peer.sockfd]
        ∧ w1.peer.sockfd = -1 ∧ is_listening w1 = false
        ∧ w1.peer.queue_count = 0 ∧ w1.peer.rb.data = []
        ∧ w1.net.incoming = rest
        ∧ get_packet R u w = some (⟨Error.FAILED, [], 0⟩, w1)
        ∧ get_available_packet_count R w = some (0, w1)
        ∧ (∃ w2, get_packet R u w1 = some (⟨Error.FAILED, [], 0⟩, w2))
        ∧ (∃ w2, get_available_packet_count R w1 = some (0, w2)) := by
  refine ⟨?_, fun h => recv_len_full R w.peer.rb h, ?_⟩
  · intro p_wait v v1 r h hzero
    obtain ⟨e, he⟩ := hzero
    obtain ⟨pre, len, ret, errno, hpre, _, hcase⟩ := poll_shape R p_wait v r v1 h
    obtain ⟨_, hpos, _, _⟩ := recv_results_received _ _ pre hpre
    rcases hcase with ⟨_, hret, _, hlog, _, _⟩ | ⟨hr, _, _, hfd, hq, hrb⟩
    · rw [issued_append v v1 _ hlog] at he
      simp only [recv_results_append, recv_results, List.mem_append, List.mem_singleton,
        Prod.mk.injEq] at he
      rcases he with he | ⟨he, _⟩
      · exact absurd (hpos _ he) (by simp)
      · omega
    · exact ⟨hr, hfd, hq, by rw [hrb]⟩
  · have htake : (List.take (recv_len R w.peer.rb).toNat payload).length = 0 := by
      rcases hz with hz | hz
      · simp [hz]
      · simp [recv_len_full R w.peer.rb hz]
    have hpoll : _poll R false w = some (Error.FAILED,
        close { peer := w.peer
                net := { w.net with
                    incoming := rest
                    log := w.net.log ++
                      [Syscall.recvfrom w.peer.sockfd (recv_len R w.peer.rb) true 0 0] } }) := by
      simp only [_poll, recv_loop, if_neg hbound, hin, poll_loop, htake]
      simp
    have hu : (close { peer := w.peer
                       net := { w.net with
                           incoming := rest
                           log := w.net.log ++
                             [Syscall.recvfrom w.peer.sockfd (recv_len R w.peer.rb) true 0 0] } }
                ).peer.sockfd = -1 := rfl
    refine ⟨_, hpoll, ?_, rfl, rfl, rfl, rfl, ?_, ?_, ?_, ?_, ?_⟩
    · simp [issued, close, hbound]
    · simp [close, hbound]
    · simp [get_packet, hpoll]
    · simp [get_available_packet_count, hpoll]
    · exact get_packet_unbound R u _ hu
    · exact gapc_unbound R _ hu

/-- C16, at concrete inputs: a zero-length datagram on an empty bound peer, and
"ping" arriving while one queued frame fills the ring buffer of 16 bytes. -/
theorem zero_byte_receive_fatal_witness :
    (∃ w1, _poll 65536 false (bound_world 1024 [RecvEvent.datagram ping.1 []])
          = some (Error.FAILED, w1)
        ∧ w1.peer.sockfd = -1 ∧ w1.peer.queue_count = 0
        ∧ get_available_packet_count 65536 (bound_world 1024 [RecvEvent.datagram ping.1 []])
            = some (0, w1))
    ∧ (full_world [RecvEvent.datagram ping.1 ping.2]).peer.queue_count = 1
    ∧ (∃ w1, _poll 65536 false (full_world [RecvEvent.datagram ping.1 ping.2])
          = some (Error.FAILED, w1)
        ∧ issued (full_world [RecvEvent.datagram ping.1 ping.2]) w1
            = [Syscall.recvfrom 3 0 true 0 0, Syscall.close 3]
        ∧ w1.peer.sockfd = -1 ∧ w1.peer.queue_count = 0 ∧ w1.peer.rb.data = []
        ∧ get_packet 65536 u0 (full_world [RecvEvent.datagram ping.1 ping.2])
            = some (⟨Error.FAILED, [], 0⟩, w1)) := by
  obtain ⟨_, _, w1, h1, _, h3, _, h5, _, _, _, h9, _, _⟩ :=
    zero_byte_receive_fatal 65536 u0 (bound_world 1024 [RecvEvent.datagram ping.1 []])
      ping.1 [] [] (by decide) rfl (Or.inl rfl)
  obtain ⟨_, hlen, v1, g1, g2, g3, _, g5, g6, _, g8, _, _, _⟩ :=
    zero_byte_receive_fatal 65536 u0 (full_world [RecvEvent.datagram ping.1 ping.2])
      ping.1 ping.2 [] (by decide) rfl (Or.inr (by decide))
  rw [hlen (by decide)] at g2
  exact ⟨⟨w1, h1, h3, h5, h9⟩, rfl, ⟨v1, g1, g2, g3, g5, g6, g8⟩⟩

end UDP

namespace Config

/-! ## Facts about the map -/

theorem map_find_set {K V : Type} [DecidableEq K] (m : Map K V) (k k1 : K) (v : V) :
    Map.find (Map.set m k v) k1 = if k = k1 then some v else Map.find m k1 := by
  induction m with
  | nil => simp [Map.set, Map.find]
  | cons e r ih =>
    obtain ⟨k2, v2⟩ := e
    by_cases h2 : k2 = k
    · subst h2
      by_cases h1 : k2 = k1 <;> simp [Map.set, Map.find, h1]
    · by_cases h1 : k2 = k1
      · subst h1
        have : ¬ (k = k2) := fun h => h2 h.symm
        simp [Map.set, Map.find, h2, this]
      · simp [Map.set, Map.find, h2, h1, ih]

theorem map_find_erase {K V : Type} [DecidableEq K] (m : Map K V) (k k1 : K) :
    Map.find (Map.erase m k) k1 = if k = k1 then none else Map.find m k1 := by
  induction m with
  | nil => simp [Map.erase, Map.find]
  | cons e r ih =>
    obtain ⟨k2, v2⟩ := e
    by_cases h2 : k2 = k
    · subst h2
      by_cases h1 : k2 = k1
      · subst h1
        simpa [Map.erase] using ih
      · simp [Map.erase, Map.find, h1, ih]
    · by_cases h1 : k2 = k1
      · subst h1
        have : ¬ (k = k2) := fun h => h2 h.symm
        simp [Map.erase, Map.find, h2, this]
      · simp [Map.erase, Map.find, h2, h1, ih]

/-- A map that is empty once the key `k` is erased holds no other key. -/
theorem map_erase_nil {K V : Type} [DecidableEq K] (m : Map K V) (k k1 : K)
    (h : Map.erase m k = []) (hne : k ≠ k1) : Map.find m k1 = none := by
  have := map_find_erase m k k1
  rw [h, if_neg hne] at this
  rw [← this]
  rfl

theorem map_set_ne_nil {K V : Type} [DecidableEq K] (m : Map K V) (k : K) (v : V) :
    Map.set m k v ≠ [] := by
  cases m with
  | nil => simp [Map.set]
  | cons e r =>
    obtain ⟨k2, v2⟩ := e
    by_cases h2 : k2 = k <;> simp [Map.set, h2]

theorem map_set_set {K V : Type} [DecidableEq K] (m : Map K V) (k : K) (v0 v : V) :
    Map.set (Map.set m k v0) k v = Map.set m k v := by
  induction m with
  | nil => simp [Map.set]
  | cons e r ih =>
    obtain ⟨k2, v2⟩ := e
    by_cases h2 : k2 = k
    · simp [Map.set, h2]
    · simp [Map.set, h2, ih]

theorem map_mem_set {K V : Type} [DecidableEq K] (m : Map K V) (k : K) (v : V) (e : K × V)
    (h : e ∈ Map.set m k v) : e ∈ m ∨ e = (k, v) := by
  induction m with
  | nil => simpa [Map.set] using h
  | cons e1 r ih =>
    obtain ⟨k2, v2⟩ := e1
    by_cases h2 : k2 = k
    · simp only [Map.set, h2, if_true, List.mem_cons] at h
      rcases h with h | h
      · exact Or.inr h
      · exact Or.inl (List.mem_cons_of_mem _ h)
    · simp only [Map.set, h2, if_false, List.mem_cons] at h
      rcases h with h | h
      · exact Or.inl (h ▸ List.mem_cons_self _ _)
      · rcases ih h with h | h
        · exact Or.inl (List.mem_cons_of_mem _ h)
        · exact Or.inr h

theorem map_mem_erase {K V : Type} [DecidableEq K] (m : Map K V) (k : K) (e : K × V)
    (h : e ∈ Map.erase m k) : e ∈ m := by
  induction m with
  | nil => simp [Map.erase] at h
  | cons e1 r ih =>
    obtain ⟨k2, v2⟩ := e1
    by_cases h2 : k2 = k
    · simp only [Map.erase, h2, if_true] at h
      exact List.mem_cons_of_mem _ (ih h)
    · simp only [Map.erase, h2, if_false, List.mem_cons] at h
      rcases h with h | h
      · exact h ▸ List.mem_cons_self _ _
      · exact List.mem_cons_of_mem _ (ih h)

theorem map_mem_erase_key {K V : Type} [DecidableEq K] (m : Map K V) (k : K) (e : K × V)
    (h : e ∈ Map.erase m k) : e.1 ≠ k := by
  induction m with
  | nil => simp [Map.erase] at h
  | cons e1 r ih =>
    obtain ⟨k2, v2⟩ := e1
    by_cases h2 : k2 = k
    · simp only [Map.erase, h2, if_true] at h
      exact ih h
    · simp only [Map.erase, h2, if_false, List.mem_cons] at h
      rcases h with h | h
      · rw [h]; exact h2
      · exact ih h

theorem map_find_mem {K V : Type} [DecidableEq K] (m : Map K V) (k : K) (v : V)
    (h : Map.find m k = some v) : (k, v) ∈ m := by
  induction m with
  | nil => simp [Map.find] at h
  | cons e1 r ih =>
    obtain ⟨k2, v2⟩ := e1
    by_cases h2 : k2 = k
    · simp only [Map.find, h2, if_true, Option.some.injEq] at h
      rw [h2, h]; exact List.mem_cons_self _ _
    · simp only [Map.find, h2, if_false] at h
      exact List.mem_cons_of_mem _ (ih h)

/-! ## Facts about the store -/

theorem get_value_stored (cf : ConfigFile) (s k : String) (d : Variant) :
    get_value cf s k d = (stored cf s k).getD d := by
  unfold get_value stored Map.has
  cases hs : Map.find cf.values s with
  | none => simp
  | some m =>
    cases hk : Map.find m k with
    | none => simp [hk]
    | some v => simp [hk]

theorem has_section_key_stored (cf : ConfigFile) (s k : String) :
    has_section_key cf s k = (stored cf s k).isSome := by
  unfold has_section_key stored Map.has
  cases hs : Map.find cf.values s with
  | none => simp
  | some m => simp

/-- What one `set_value` call does to what the store holds. -/
theorem stored_set_value (cf : ConfigFile) (s k : String) (v : Variant) (s1 k1 : String) :
    stored (set_value cf s k v) s1 k1 =
      if s = s1 ∧ k = k1 then (if v.get_type = VariantType.NIL then none else some v)
      else stored cf s1 k1 := by
  by_cases hv : v.get_type = VariantType.NIL
  · simp only [set_value, hv, if_true, Map.has]
    rcases Option.eq_none_or_eq_some (Map.find cf.values s) with hf | ⟨m, hf⟩
    · simp only [hf, Option.isSome_none, Bool.not_false, if_true]
      by_cases hs : s = s1
      · subst hs
        simp [stored, hf]
      · simp [hs]
    · simp only [hf, Option.isSome_some, Bool.not_true, Bool.false_eq_true, if_false,
        Option.getD_some, Map.empty]
      by_cases he : Map.erase m k = []
      · simp only [he, List.isEmpty_nil, if_true, stored, map_find_erase, map_find_set]
        by_cases hs : s = s1
        · subst hs
          by_cases hk : k = k1
          · simp [hk]
          · simp [hk, hf, map_erase_nil m k k1 he hk]
        · simp [hs]
      · have hne : (Map.erase m k).isEmpty = false := by
          cases hx : Map.erase m k with
          | nil => exact absurd hx he
          | cons a r => rfl
        simp only [hne, Bool.false_eq_true, if_false, stored, map_find_set]
        by_cases hs : s = s1
        · subst hs
          by_cases hk : k = k1
          · simp [hk, map_find_erase]
          · simp [hk, hf, map_find_erase]
        · simp [hs]
  · simp only [set_value, hv, if_false, Map.has, stored, map_find_set]
    rcases Option.eq_none_or_eq_some (Map.find cf.values s) with hf | ⟨m, hf⟩
    · simp only [hf, Option.isSome_none, Bool.not_false, if_true, map_find_set,
        Option.getD_some]
      by_cases hs : s = s1
      · subst hs
        by_cases hk : k = k1
        · simp [hk, map_find_set]
        · simp [hk, hf, map_find_set, Map.find]
      · simp [hs, map_find_set]
    · simp only [hf, Option.isSome_some, Bool.not_true, Bool.false_eq_true, if_false,
        Option.getD_some]
      by_cases hs : s = s1
      · subst hs
        by_cases hk : k = k1
        · simp [hk, map_find_set]
        · simp [hk, hf, map_find_set]
      · simp [hs]

theorem set_values_append (cf : ConfigFile) (calls : List SetCall) (c : SetCall) :
    set_values cf (calls ++ [c]) = set_value (set_values cf calls) c.1 c.2.1 c.2.2 := by
  simp [set_values, List.foldl_append]

theorem last_set_append (calls : List SetCall) (c : SetCall) (s k : String) :
    last_set (calls ++ [c]) s k =
      if c.1 = s ∧ c.2.1 = k then some c.2.2 else last_set calls s k := by
  unfold last_set
  rw [List.reverse_append]
  by_cases h : c.1 = s ∧ c.2.1 = k
  · simp [List.find?, h]
  · simp [List.find?, h]

/-- The store holds what the reference map holds. -/
theorem stored_set_values (calls : List SetCall) (s k : String) :
    stored (set_values ConfigFile.init calls) s k = reference calls s k := by
  induction calls using List.reverseRecOn with
  | nil => rfl
  | append_singleton calls c ih =>
    rw [set_values_append, stored_set_value, ih]
    unfold reference
    rw [last_set_append]
    by_cases h : c.1 = s ∧ c.2.1 = k
    · simp [h]
    · simp [h]

/-- C17. Lookup equals a reference map: after every sequence of `set_value`
calls on an initially empty `ConfigFile`, `get_value(s, k, d)` returns the value
of the last call `set_value(s, k, v)` of the sequence when there is one and its
`v` is not nil, and the default `d` otherwise; `has_section_key(s, k)` is true
in exactly the first case; and in every state a `set_value` on another section
or key changes neither `get_value(s, k, d)` nor `has_section_key(s, k)`. -/
theorem lookup_equals_reference (calls : List SetCall) (s k : String) (d : Variant) :
    get_value (set_values ConfigFile.init calls) s k d
      = (match last_set calls s k with
         | some v => if v.get_type = VariantType.NIL then d else v
         | none => d)
    ∧ has_section_key (set_values ConfigFile.init calls) s k
      = (match last_set calls s k with
         | some v => decide (v.get_type ≠ VariantType.NIL)
         | none => false)
    ∧ ∀ (cf : ConfigFile) (s1 k1 : String) (v : Variant), ¬ (s1 = s ∧ k1 = k) →
        get_value (set_value cf s1 k1 v) s k d = get_value cf s k d
        ∧ has_section_key (set_value cf s1 k1 v) s k = has_section_key cf s k := by
  refine ⟨?_, ?_, ?_⟩
  · rw [get_value_stored, stored_set_values]
    unfold reference
    cases last_set calls s k with
    | none => rfl
    | some v => by_cases hv : v.get_type = VariantType.NIL <;> simp [hv]
  · rw [has_section_key_stored, stored_set_values]
    unfold reference
    cases last_set calls s k with
    | none => rfl
    | some v => by_cases hv : v.get_type = VariantType.NIL <;> simp [hv]
  · intro cf s1 k1 v hne
    rw [get_value_stored, get_value_stored, has_section_key_stored, has_section_key_stored,
      stored_set_value, if_neg hne]
    exact ⟨rfl, rfl⟩

/-- One `set_value` call keeps every stored section non-empty. -/
theorem set_value_holds_keys (cf : ConfigFile) (s k : String) (v : Variant)
    (h : sections_hold_keys cf) : sections_hold_keys (set_value cf s k v) := by
  by_cases hv : v.get_type = VariantType.NIL
  · simp only [set_value, hv, if_true, Map.has]
    rcases Option.eq_none_or_eq_some (Map.find cf.values s) with hf | ⟨m, hf⟩
    · simpa [hf] using h
    · simp only [hf, Option.isSome_some, Bool.not_true, Bool.false_eq_true, if_false,
        Option.getD_some, Map.empty]
      by_cases he : Map.erase m k = []
      · simp only [he, List.isEmpty_nil, if_true]
        intro e hmem
        have h1 := map_mem_erase _ _ _ hmem
        have h2 := map_mem_erase_key _ _ _ hmem
        rcases map_mem_set _ _ _ _ h1 with h3 | h3
        · exact h e h3
        · rw [h3] at h2
          exact absurd rfl h2
      · have hne : (Map.erase m k).isEmpty = false := by
          cases hx : Map.erase m k with
          | nil => exact absurd hx he
          | cons a r => rfl
        simp only [hne, Bool.false_eq_true, if_false]
        intro e hmem
        rcases map_mem_set _ _ _ _ hmem with h3 | h3
        · exact h e h3
        · rw [h3]; exact he
  · simp only [set_value, hv, if_false, Map.has]
    rcases Option.eq_none_or_eq_some (Map.find cf.values s) with hf | ⟨m, hf⟩
    · simp only [hf, Option.isSome_none, Bool.not_false, if_true, map_set_set]
      intro e hmem
      rcases map_mem_set _ _ _ _ hmem with h3 | h3
      · exact h e h3
      · rw [h3]; exact map_set_ne_nil _ _ _
    · simp only [hf, Option.isSome_some, Bool.not_true, Bool.false_eq_true, if_false]
      intro e hmem
      rcases map_mem_set _ _ _ _ hmem with h3 | h3
      · exact h e h3
      · rw [h3]; exact map_set_ne_nil _ _ _

theorem set_values_hold_keys (calls : List SetCall) :
    ∀ cf, sections_hold_keys cf → sections_hold_keys (set_values cf calls) := by
  induction calls with
  | nil => intro cf h; exact h
  | cons c cs ih =>
    intro cf h
    exact ih _ (set_value_holds_keys cf c.1 c.2.1 c.2.2 h)

/-- C18. No empty section is stored: in every state reached from an empty
`ConfigFile` by any sequence of `set_value` calls, nil values included, every
stored section holds at least one key, and `has_section(s)` is true if and only
if `has_section_key(s, k)` is true for some key `k`. -/
theorem no_empty_section (calls : List SetCall) (s : String) :
    sections_hold_keys (set_values ConfigFile.init calls)
    ∧ (has_section (set_values ConfigFile.init calls) s = true
        ↔ ∃ k, has_section_key (set_values ConfigFile.init calls) s k = true) := by
  have hinv : sections_hold_keys (set_values ConfigFile.init calls) :=
    set_values_hold_keys calls ConfigFile.init (by intro e he; simp [ConfigFile.init] at he)
  refine ⟨hinv, ?_⟩
  constructor
  · intro hs
    unfold has_section Map.has at hs
    rcases Option.eq_none_or_eq_some (Map.find (set_values ConfigFile.init calls).values s)
      with hf | ⟨m, hf⟩
    · rw [hf] at hs; simp at hs
    · have hm := hinv _ (map_find_mem _ _ _ hf)
      simp only at hm
      obtain ⟨e, r, hmr⟩ := List.exists_cons_of_ne_nil hm
      refine ⟨e.1, ?_⟩
      rw [has_section_key_stored]
      simp [stored, hf, hmr, Map.find]
  · rintro ⟨k, hk⟩
    unfold has_section
    unfold has_section_key at hk
    by_contra hn
    simp [hn] at hk

/-- The store after `sample_calls`: the section "audio", whose only key was
erased, is gone, "video" holds its two keys with the last width set, and a
lookup in the erased section gives the default. -/
theorem sample_calls_store :
    (set_values ConfigFile.init sample_calls).values
      = [("video", [("width", Variant.int 1024), ("height", Variant.int 600)])]
    ∧ has_section (set_values ConfigFile.init sample_calls) "audio" = false
    ∧ get_value (set_values ConfigFile.init sample_calls) "audio" "driver" (Variant.int 7)
        = Variant.int 7
    ∧ get_value (set_values ConfigFile.init sample_calls) "video" "width" Variant.nil
        = Variant.int 1024 := by
  decide

end Config
